import Mathlib

/-!
Verification of the `utrace` tracing library.

The development shallowly embeds the library's core:

* `src/utrace/__init__.py` — the `TracerBase._trace` / `TracerBase._span`
  context managers (modelled as an interpreter `runCall` / `runCalls` over
  trees of nested calls), `Tracer.span_to_dict` / `Tracer.span_from_dict`
  (the cross-process propagation codec), and the `Span` record.
* `src/utrace/opensearch.py` — `encode_trace`, the log/search document
  encoder (Python dicts are modelled as association lists, a missing key
  is a `KeyError`, modelled with `Except`).
* `src/utrace/otel.py` — `add_to_buffer` (the capped export buffer) and
  `_utrace_span_to_otel` (the OTel payload translator).

Wall-clock reads (`time()`, `perf_counter()`), random draws (`random()`)
and the random id prefix are environment inputs; they are modelled as
input streams / injected functions in `Cfg`, mirroring the library's own
constructor-injected id factories.  Python floats are modelled as `Rat`.
-/

/-- A metadata value: Python `str | int` (`Metadata = dict[str, str | int]`). -/
inductive Value where
  | vStr : String → Value
  | vInt : Int → Value
deriving DecidableEq, Repr

/-- A metadata dictionary, as an ordered association list (Python dicts
preserve insertion order). -/
abbrev Metadata := List (String × Value)

/-- Python dictionary assignment `m[k] = v`: replace in place when the key is
present, append otherwise. -/
def dictSet (m : Metadata) (k : String) (v : Value) : Metadata :=
  if (List.lookup k m).isSome then
    m.map (fun kv => if kv.1 = k then (k, v) else kv)
  else
    m ++ [(k, v)]

/-- The `Span` TypedDict of `utrace/__init__.py` (lines 27-40).  Field names
are the Lean forms of the dict keys: `traceId` is `"trace.trace_id"`,
`spanId` is `"trace.span_id"`, `parentId` is the optional
`"trace.parent_id"` (present iff the span is not a trace root). -/
structure Span where
  name : String
  time : Rat
  duration_ms : Rat
  traceId : String
  spanId : String
  parentId : Option String
  metadata : Metadata
  trace_metadata : Metadata
  tracer_metadata : Metadata
deriving DecidableEq, Repr

/-- The value stored in the `_active_trace_and_span` context variable,
minus the shared children list, which the interpreter threads explicitly:
`(trace_id, trace_metadata, span_id)`. -/
structure Ctx where
  traceId : String
  traceMeta : Metadata
  spanId : String
deriving DecidableEq, Repr

/-- Tracer configuration: the attrs fields of `TracerBase` (lines 51-66)
plus the environment inputs (random draws and clock reads) as streams. -/
structure Cfg where
  service_name : String
  metadata : Metadata := []
  trace_chance : Option Rat := none
  traceIdF : Nat → String
  spanIdF : Nat → String
  draws : Nat → Rat := fun _ => 0
  clock : Nat → Rat := fun _ => 0

/-- The `__attrs_post_init__` hook (lines 68-69): the tracer metadata with
`metadata["service.name"] = service_name` applied. -/
def Cfg.tracerMeta (cfg : Cfg) : Metadata :=
  dictSet cfg.metadata "service.name" (.vStr cfg.service_name)

/-- Mutable interpreter state: the id counters (`_trace_cnt`, `_span_cnt`),
the positions in the draw and clock streams, the metadata handles yielded to
caller bodies so far (observations of the `yield` statements), and the
batches handed to `_emit` so far. -/
structure St where
  traceCtr : Nat := 0
  spanCtr : Nat := 0
  drawCtr : Nat := 0
  clockCtr : Nat := 0
  yields : List Metadata := []
  emitted : List (List Span) := []
deriving DecidableEq, Repr

/-- Result of running a call or a block of calls: the current children
list, the state, and the exception escaping the block, if any. -/
structure Res where
  children : List Span
  st : St
  exc : Option String
deriving DecidableEq, Repr

/-- The sampling check at the top of `TracerBase._trace` (line 84):
`self.trace_chance is not None and random() > self.trace_chance`.
The draw is consumed only when `trace_chance` is set (short-circuit). -/
def sampleCheck (cfg : Cfg) (st : St) : Bool × St :=
  match cfg.trace_chance with
  | some p => (decide (p < cfg.draws st.drawCtr), {st with drawCtr := st.drawCtr + 1})
  | none => (false, st)

/-- A traced program fragment: the dynamic tree of `with tracer.trace(...)` /
`with tracer.span(...)` blocks executed by the instrumented code, plus
`raise` statements and user-level `try/except BaseException: pass` blocks
(`catchAll`), which are needed to observe exception propagation. -/
inductive Call where
  | trace : String → Metadata → Metadata → List Call → Call
  | span : String → Metadata → List Call → Call
  | raise : String → Call
  | catchAll : List Call → Call

mutual

/-- One `with`-block of `TracerBase._trace` (lines 71-116) or
`TracerBase._span` (lines 118-159), run against the active context `ctx`
and the current trace's shared children list `ch`.

`_trace`: sampling check; on skip, `yield {}` and run the body under the
unchanged context.  Otherwise draw `trace_id` and `span_id`, read the two
clocks, set the context with a fresh children list, yield `kwargs` and run
the body; in `finally` (even when the body raised, after storing
`span_metadata["error"] = repr(exc)`) restore the context, read the clock,
append the root span (no parent id) and emit the children list.

`_span`: when the context is empty, yield `kwargs` and run the body under
the empty context, recording nothing.  Otherwise read the two clocks, draw
a `span_id`, overlay the context and run the body against the same shared
children list; in `finally` restore, read the clock and append a span whose
parent id is the previous context's span id.  No emission. -/
def runCall (cfg : Cfg) (ctx : Option Ctx) (ch : List Span) (st : St) :
    Call → Res
  | .raise e => ⟨ch, st, some e⟩
  | .catchAll body =>
      let r := runCalls cfg ctx ch st body
      ⟨r.children, r.st, none⟩
  | .span name kwargs body =>
      match ctx with
      | none =>
          let st1 := {st with yields := st.yields ++ [kwargs]}
          runCalls cfg none ch st1 body
      | some c =>
          let start := cfg.clock st.clockCtr
          let st1 := {st with clockCtr := st.clockCtr + 1}
          let dstart := cfg.clock st1.clockCtr
          let st2 := {st1 with clockCtr := st1.clockCtr + 1}
          let spanId := cfg.spanIdF st2.spanCtr
          let st3 := {st2 with spanCtr := st2.spanCtr + 1}
          let st4 := {st3 with yields := st3.yields ++ [kwargs]}
          let r := runCalls cfg (some {c with spanId := spanId}) ch st4 body
          let md := match r.exc with
            | some e => dictSet kwargs "error" (.vStr e)
            | none => kwargs
          let dend := cfg.clock r.st.clockCtr
          let st5 := {r.st with clockCtr := r.st.clockCtr + 1}
          let sp : Span :=
            ⟨name, start, (dend - dstart) * 1000, c.traceId, spanId,
              some c.spanId, md, c.traceMeta, cfg.tracerMeta⟩
          ⟨r.children ++ [sp], st5, r.exc⟩
  | .trace name tmeta kwargs body =>
      let sc := sampleCheck cfg st
      if sc.1 then
        let st1 := {sc.2 with yields := sc.2.yields ++ [[]]}
        runCalls cfg ctx ch st1 body
      else
        let traceId := cfg.traceIdF sc.2.traceCtr
        let st1 := {sc.2 with traceCtr := sc.2.traceCtr + 1}
        let spanId := cfg.spanIdF st1.spanCtr
        let st2 := {st1 with spanCtr := st1.spanCtr + 1}
        let start := cfg.clock st2.clockCtr
        let st3 := {st2 with clockCtr := st2.clockCtr + 1}
        let dstart := cfg.clock st3.clockCtr
        let st4 := {st3 with clockCtr := st3.clockCtr + 1}
        let st5 := {st4 with yields := st4.yields ++ [kwargs]}
        let r := runCalls cfg (some ⟨traceId, tmeta, spanId⟩) [] st5 body
        let md := match r.exc with
          | some e => dictSet kwargs "error" (.vStr e)
          | none => kwargs
        let dend := cfg.clock r.st.clockCtr
        let st6 := {r.st with clockCtr := r.st.clockCtr + 1}
        let root : Span :=
          ⟨name, start, (dend - dstart) * 1000, traceId, spanId,
            none, md, tmeta, cfg.tracerMeta⟩
        let st7 := {st6 with emitted := st6.emitted ++ [r.children ++ [root]]}
        ⟨ch, st7, r.exc⟩

/-- Run a block of statements in order; an escaping exception aborts the
remainder of the block and propagates. -/
def runCalls (cfg : Cfg) (ctx : Option Ctx) (ch : List Span) (st : St) :
    List Call → Res
  | [] => ⟨ch, st, none⟩
  | c :: rest =>
      let r := runCall cfg ctx ch st c
      match r.exc with
      | some e => ⟨r.children, r.st, some e⟩
      | none => runCalls cfg ctx r.children r.st rest

end

/-- The initial interpreter state. -/
def st0 : St := {}

/-- Run a whole instrumented program: no active context, fresh state. -/
def runTop (cfg : Cfg) (calls : List Call) : Res :=
  runCalls cfg none [] st0 calls

/-- A concrete configuration used to evaluate the model on test inputs:
counter-based id factories (the library's default strategy), no sampling,
an integer-valued clock. -/
def testCfg : Cfg where
  service_name := "svc"
  metadata := []
  trace_chance := none
  traceIdF := fun n => "T" ++ toString n
  spanIdF := fun n => "S" ++ toString n
  draws := fun _ => 0
  clock := fun n => (n : Rat)

/-- Number of `trace` calls in a block (each completed one runs `_emit`). -/
def countTraces : List Call → Nat
  | [] => 0
  | .trace _ _ _ body :: rest => 1 + countTraces body + countTraces rest
  | .span _ _ body :: rest => countTraces body + countTraces rest
  | .raise _ :: rest => countTraces rest
  | .catchAll body :: rest => countTraces body + countTraces rest

/-- Number of calls in a block that record a span when every trace is
sampled: every `trace` call, and every `span` call made while a trace is
active (`active` tells whether a context is active on entry). -/
def countRecorded (active : Bool) : List Call → Nat
  | [] => 0
  | .trace _ _ _ body :: rest =>
      1 + countRecorded true body + countRecorded active rest
  | .span _ _ body :: rest =>
      (if active then 1 else 0) + countRecorded active body
        + countRecorded active rest
  | .raise _ :: rest => countRecorded active rest
  | .catchAll body :: rest =>
      countRecorded active body + countRecorded active rest

/-- Whether a block contains no `raise` statement. -/
def noRaise : List Call → Bool
  | [] => true
  | .trace _ _ _ body :: rest => noRaise body && noRaise rest
  | .span _ _ body :: rest => noRaise body && noRaise rest
  | .raise _ :: _ => false
  | .catchAll body :: rest => noRaise body && noRaise rest

/-- Total number of spans across a list of emitted batches. -/
def spentSpans (batches : List (List Span)) : Nat :=
  (batches.map List.length).sum

/-- The buffer append callback of `send_to_otel` (`utrace/otel.py`,
lines 134-136): `if len(buffer) < 1000: buffer.extend(spans)`. -/
def add_to_buffer (buffer : List Span) (spans : List Span) : List Span :=
  if buffer.length < 1000 then buffer ++ spans else buffer

/-- Appending a list of spans to an empty buffer one at a time, each as its
own single-span batch. -/
def appendSingles (xs : List Span) : List Span :=
  xs.foldl (fun b x => add_to_buffer b [x]) []

/-- A value of a span dict at runtime: a string, a float, or a nested
metadata dict. -/
inductive SpanVal where
  | vs : String → SpanVal
  | vq : Rat → SpanVal
  | vm : Metadata → SpanVal
deriving DecidableEq, Repr

/-- A Python span dict at runtime, as an ordered association list. -/
abbrev PyDict := List (String × SpanVal)

/-- The runtime dict built for a span by `_trace` (lines 104-115) and
`_span` (lines 147-159): exactly these keys, `"trace.parent_id"` present
iff the span has a parent. -/
def Span.toDict (s : Span) : PyDict :=
  [("name", .vs s.name), ("time", .vq s.time),
    ("duration_ms", .vq s.duration_ms),
    ("trace.trace_id", .vs s.traceId), ("trace.span_id", .vs s.spanId)]
  ++ (match s.parentId with
      | some p => [("trace.parent_id", .vs p)]
      | none => [])
  ++ [("metadata", .vm s.metadata), ("trace_metadata", .vm s.trace_metadata),
      ("tracer_metadata", .vm s.tracer_metadata)]

/-- A value of an emitted JSON document. -/
inductive DocVal where
  | ds : String → DocVal
  | di : Int → DocVal
  | dobj : List (String × DocVal) → DocVal

/-- An emitted JSON document, as an ordered association list. -/
abbrev Doc := List (String × DocVal)

/-- Python `int()` truncation of a float (toward zero), on rationals. -/
def pyInt (q : Rat) : Int := Int.tdiv q.num q.den

/-- The value a Python dict merge `a | b` keeps for a key of `a`: the
value from `b` when `b` also has the key, else the value from `a`. -/
def mergeVal (b : Doc) (k : String) (v : DocVal) : DocVal :=
  match List.lookup k b with
  | some w => w
  | none => v

/-- Python dict merge `a | b`: keys of `a` in order (values taken from `b`
when `b` also has the key), then the keys only in `b`, in order. -/
def pyMerge (a b : Doc) : Doc :=
  a.map (fun kv => (kv.1, mergeVal b kv.1 kv.2))
  ++ b.filter (fun kv => (List.lookup kv.1 a).isNone)

/-- Dict string access `d[k]`: a missing key is a `KeyError`, a value of
the wrong runtime type a `TypeError`. -/
def getStr (d : PyDict) (k : String) : Except String String :=
  match List.lookup k d with
  | some (.vs s) => .ok s
  | some _ => .error ("TypeError: " ++ k)
  | none => .error ("KeyError: " ++ k)

/-- Dict float access `d[k]`. -/
def getRat (d : PyDict) (k : String) : Except String Rat :=
  match List.lookup k d with
  | some (.vq q) => .ok q
  | some _ => .error ("TypeError: " ++ k)
  | none => .error ("KeyError: " ++ k)

/-- Dict metadata access `d[k]`. -/
def getMeta (d : PyDict) (k : String) : Except String Metadata :=
  match List.lookup k d with
  | some (.vm m) => .ok m
  | some _ => .error ("TypeError: " ++ k)
  | none => .error ("KeyError: " ++ k)

/-- A metadata dict flattened into a JSON document. -/
def mdToDoc (m : Metadata) : Doc :=
  m.map (fun kv =>
    (kv.1, match kv.2 with
      | .vStr s => DocVal.ds s
      | .vInt n => DocVal.di n))

/-- The `span_dict` literal of `encode_trace` (`utrace/opensearch.py`,
lines 27-43) together with the span's metadata (line 45).  `iso` stands for
`datetime.fromtimestamp(..).isoformat(timespec="microseconds")`, an injected
formatting function; `endTime` formats `time + duration_ms / 1000`;
`durationInNanos` is `int(duration_ms * 1_000_000)`; `parentSpanId` is
`span.get("trace.parent_id", "")`.  Accessing the missing top-level
`"service.name"` key raises. -/
def spanCore (iso : Rat → String) (d : PyDict) :
    Except String (Doc × Metadata) := do
  let tid ← getStr d "trace.trace_id"
  let sid ← getStr d "trace.span_id"
  let name ← getStr d "name"
  let t ← getRat d "time"
  let dur ← getRat d "duration_ms"
  let svc ← getStr d "service.name"
  let md ← getMeta d "metadata"
  let sd : Doc :=
    [("logger", .ds "trace"), ("traceId", .ds tid), ("spanId", .ds sid),
      ("name", .ds name), ("startTime", .ds (iso t)),
      ("endTime", .ds (iso (t + dur / 1000))), ("serviceName", .ds svc),
      ("durationInNanos", .di (pyInt (dur * 1000000))),
      ("parentSpanId", .ds (match List.lookup "trace.parent_id" d with
        | some (.vs p) => p
        | _ => ""))]
  pure (sd, md)

/-- One printed document of `encode_trace` (line 46):
`span_dict | metadata | tg`. -/
def encodeSpan (iso : Rat → String) (tg : Doc) (d : PyDict) :
    Except String Doc :=
  (spanCore iso d).map (fun sm => pyMerge (pyMerge sm.1 (mdToDoc sm.2)) tg)

/-- The trace-group header of `encode_trace` (lines 9-24): built from the
last span of the batch, and nonempty exactly when that span has no
`"trace.parent_id"`. -/
def mkTraceGroup (iso : Rat → String) (last : PyDict) : Except String Doc :=
  if (List.lookup "trace.parent_id" last).isSome then pure []
  else
    match getStr last "name", getRat last "time",
        getRat last "duration_ms" with
    | .ok name, .ok t, .ok dur =>
        .ok [("traceGroup", .ds name),
          ("traceGroupFields",
            .dobj [("endTime", .ds (iso (t + dur / 1000))),
              ("durationInNanos", .di (pyInt (dur * 1000000)))])]
    | .error e, _, _ => .error e
    | .ok _, .error e, _ => .error e
    | .ok _, .ok _, .error e => .error e

/-- The per-span loop of `encode_trace` (lines 26-46): documents printed in
order; a failing span aborts the loop after the earlier documents were
already printed. -/
def encodeLoop (iso : Rat → String) (tg : Doc) :
    List PyDict → List Doc × Option String
  | [] => ([], none)
  | d :: rest =>
      match encodeSpan iso tg d with
      | .error e => ([], some e)
      | .ok doc =>
          let r := encodeLoop iso tg rest
          (doc :: r.1, r.2)

/-- `encode_trace` (`utrace/opensearch.py`, lines 5-46): the list of
documents printed, and the exception escaping, if any.  `spans[-1]` on an
empty list is an `IndexError`. -/
def encode_trace (iso : Rat → String) (spans : List PyDict) :
    List Doc × Option String :=
  match spans.getLast? with
  | none => ([], some "IndexError")
  | some last =>
      match mkTraceGroup iso last with
      | .error e => ([], some e)
      | .ok tg => encodeLoop iso tg spans

/-- An OTel attribute value: `{"stringValue": v}` or `{"intValue": v}`. -/
inductive AttrVal where
  | sv : String → AttrVal
  | iv : Int → AttrVal
deriving DecidableEq, Repr

/-- The key-value attribute built by the translator for a metadata entry:
`{"key": k, "value": {"stringValue": v} if isinstance(v, str) else
{"intValue": v}}`. -/
def toAttr (kv : String × Value) : String × AttrVal :=
  (kv.1, match kv.2 with
    | .vStr s => .sv s
    | .vInt n => .iv n)

/-- The OTel `Span` TypedDict of `utrace/otel.py` (lines 87-96). -/
structure OtelSpan where
  traceId : String
  spanId : String
  parentSpanId : Option String
  name : String
  startTimeUnixNano : String
  endTimeUnixNano : String
  kind : Int
  attributes : List (String × AttrVal)
deriving DecidableEq, Repr

/-- Python `str()` of a metadata value. -/
def pyStr : Value → String
  | .vStr s => s
  | .vInt n => toString n

/-- The `_KIND_TO_OTEL` table of `utrace/otel.py` (lines 183-189). -/
def KIND_TO_OTEL : List (String × Int) :=
  [("internal", 1), ("server", 2), ("client", 3), ("producer", 4),
    ("consumer", 5)]

/-- The translator `_utrace_span_to_otel` (`utrace/otel.py`,
lines 192-213).  `span["metadata"]["kind"]` is a `KeyError` when the
metadata has no `kind` entry, and the table lookup
`_KIND_TO_OTEL[str(...)]` a `KeyError` for an unknown kind string; the
attribute list is `chain(trace_metadata.items(), metadata.items())`
without the `kind` key; `parentSpanId` is set iff `"trace.parent_id"` is
in the span. -/
def utrace_span_to_otel (s : Span) : Except String OtelSpan :=
  match List.lookup "kind" s.metadata with
  | none => .error "KeyError: kind"
  | some v =>
      match List.lookup (pyStr v) KIND_TO_OTEL with
      | none => .error ("KeyError: " ++ pyStr v)
      | some k =>
          .ok
            { traceId := s.traceId
              spanId := s.spanId
              parentSpanId := s.parentId
              name := s.name
              startTimeUnixNano := toString (pyInt (s.time * 1000000000))
              endTimeUnixNano :=
                toString (pyInt (s.time * 1000000000 + s.duration_ms * 1000000))
              kind := k
              attributes :=
                ((s.trace_metadata ++ s.metadata).filter
                  (fun kv => kv.1 ≠ "kind")).map toAttr }

/-- The span-metadata kwargs dict built by the OTel `Tracer.trace` /
`Tracer.span` entry points (`utrace/otel.py`, lines 30-67): the `kind`
keyword (whose declared default is `"server"`) is passed into the base
call as the first metadata entry, ahead of the remaining kwargs. -/
def otelKwargs (kind : String) (kwargs : Metadata) : Metadata :=
  ("kind", .vStr kind) :: kwargs

/-- Python `repr()` of a metadata value (no escaping: the development only
evaluates it on values without quotes or escapes in them). -/
def pyRepr : Value → String
  | .vStr s => "\x27" ++ s ++ "\x27"
  | .vInt n => toString n

/-- Python `str()` of a metadata dict, as interpolated by an f-string:
`\x7b`/`\x7d` are the literal braces. -/
def pyStrOfMetadata (m : Metadata) : String :=
  "\x7b"
    ++ String.intercalate ", "
      (m.map (fun kv => "\x27" ++ kv.1 ++ "\x27: " ++ pyRepr kv.2))
    ++ "\x7d"

/-- `Tracer.span_to_dict` (`utrace/__init__.py`, lines 209-211): an empty
token with no active context, else
`{"_trace": f"{parent[0]},{parent[1]}"}` — note the source interpolates
`parent[1]`, the trace-metadata dict of the
`(trace_id, trace_metadata, span_id, children)` tuple. -/
def span_to_dict (ctx : Option Ctx) : List (String × String) :=
  match ctx with
  | none => []
  | some c => [("_trace", c.traceId ++ "," ++ pyStrOfMetadata c.traceMeta)]

/-- Python `value.split(",")` (a single-character separator), computed on
the underlying character list. -/
def pySplitComma (s : String) : List String :=
  (s.data.splitOn (Char.ofNat 44)).map List.asString

/-- `Tracer.span_from_dict` (`utrace/__init__.py`, lines 191-207): yield an
empty handle when the token lacks `"_trace"`; else split the token value on
the comma into `(trace_id, parent_id)` (a `ValueError` unless exactly two
parts), run `self.span` against the explicit parent
`(trace_id, {}, parent_id, children := [])`, and in `finally` emit the
fresh children list. -/
def span_from_dict (cfg : Cfg) (st : St) (name : String) (kwargs : Metadata)
    (parent_dict : List (String × String)) (body : List Call) :
    St × Option String :=
  match List.lookup "_trace" parent_dict with
  | none => ({st with yields := st.yields ++ [[]]}, none)
  | some v =>
      match pySplitComma v with
      | [trace_id, parent_id] =>
          let r := runCall cfg (some ⟨trace_id, [], parent_id⟩) [] st
            (.span name kwargs body)
          ({r.st with emitted := r.st.emitted ++ [r.children]}, r.exc)
      | _ => (st, some "ValueError")

/-- The state after the prologue of the active-context branch of `_span`
(two clock reads, one span id, the yield): used to restate the branch in
applied form for reasoning. -/
def spanState (st : St) (kwargs : Metadata) : St :=
  {st with
    clockCtr := st.clockCtr + 1 + 1
    spanCtr := st.spanCtr + 1
    yields := st.yields ++ [kwargs]}

/-- The span appended by the active-context branch of `_span`, given the
body's result `r`. -/
def spanRecord (cfg : Cfg) (c : Ctx) (st : St) (name : String)
    (kwargs : Metadata) (r : Res) : Span :=
  ⟨name, cfg.clock st.clockCtr,
    (cfg.clock r.st.clockCtr - cfg.clock (st.clockCtr + 1)) * 1000,
    c.traceId, cfg.spanIdF st.spanCtr, some c.spanId,
    (match r.exc with
      | some e => dictSet kwargs "error" (.vStr e)
      | none => kwargs),
    c.traceMeta, cfg.tracerMeta⟩

/-- The epilogue of the active-context branch of `_span`: append the span,
read the clock, propagate the body's exception. -/
def spanWrap (cfg : Cfg) (c : Ctx) (st : St) (name : String)
    (kwargs : Metadata) (r : Res) : Res :=
  ⟨r.children ++ [spanRecord cfg c st name kwargs r],
    {r.st with clockCtr := r.st.clockCtr + 1}, r.exc⟩

/-- The context entered by the sampled branch of `_trace`. -/
def traceCtx (cfg : Cfg) (st : St) (tmeta : Metadata) : Ctx :=
  ⟨cfg.traceIdF (sampleCheck cfg st).2.traceCtr, tmeta,
    cfg.spanIdF (sampleCheck cfg st).2.spanCtr⟩

/-- The state after the prologue of the sampled branch of `_trace`. -/
def traceState (cfg : Cfg) (st : St) (kwargs : Metadata) : St :=
  {(sampleCheck cfg st).2 with
    traceCtr := (sampleCheck cfg st).2.traceCtr + 1
    spanCtr := (sampleCheck cfg st).2.spanCtr + 1
    clockCtr := (sampleCheck cfg st).2.clockCtr + 1 + 1
    yields := (sampleCheck cfg st).2.yields ++ [kwargs]}

/-- The root span appended by the sampled branch of `_trace`, given the
body's result `r`. -/
def rootRecord (cfg : Cfg) (st : St) (name : String)
    (tmeta kwargs : Metadata) (r : Res) : Span :=
  ⟨name, cfg.clock (sampleCheck cfg st).2.clockCtr,
    (cfg.clock r.st.clockCtr - cfg.clock ((sampleCheck cfg st).2.clockCtr + 1))
      * 1000,
    cfg.traceIdF (sampleCheck cfg st).2.traceCtr,
    cfg.spanIdF (sampleCheck cfg st).2.spanCtr, none,
    (match r.exc with
      | some e => dictSet kwargs "error" (.vStr e)
      | none => kwargs),
    tmeta, cfg.tracerMeta⟩

/-- The epilogue of the sampled branch of `_trace`: restore the caller's
children, read the clock, append the root span to the body's children and
emit the batch. -/
def traceWrap (cfg : Cfg) (ch : List Span) (st : St) (name : String)
    (tmeta kwargs : Metadata) (r : Res) : Res :=
  ⟨ch, {r.st with
      clockCtr := r.st.clockCtr + 1
      emitted := r.st.emitted
        ++ [r.children ++ [rootRecord cfg st name tmeta kwargs r]]},
    r.exc⟩

mutual

/-- Size of a call tree, the induction measure for interpreter proofs. -/
def csize : Call → Nat
  | .trace _ _ _ body => 1 + csizes body
  | .span _ _ body => 1 + csizes body
  | .raise _ => 1
  | .catchAll body => 1 + csizes body

/-- Size of a block of calls. -/
def csizes : List Call → Nat
  | [] => 0
  | c :: rest => csize c + csizes rest

end

/-- A context is well formed for a state when its span id was drawn from
the span-id factory at an index already consumed. -/
def CtxOk (cfg : Cfg) (st : St) (c : Ctx) : Prop :=
  ∃ k0, k0 < st.spanCtr ∧ c.spanId = cfg.spanIdF k0

/-- The spans a block appends to the current children list, relative to a
context `c` and the span-counter window `[lo, hi)` of the block: each has
the trace id and trace metadata of `c`, a span id drawn inside the window,
and a parent id drawn strictly earlier than its own id which is either the
context's span id or the span id of another appended span. -/
def DeltaOk (cfg : Cfg) (c : Ctx) (lo hi : Nat) (Δ : List Span) : Prop :=
  ∀ s ∈ Δ, s.traceId = c.traceId ∧ s.trace_metadata = c.traceMeta ∧
    ∃ ks p kp, s.spanId = cfg.spanIdF ks ∧ lo ≤ ks ∧ ks < hi ∧
      s.parentId = some p ∧ p = cfg.spanIdF kp ∧ kp < ks ∧
      (p = c.spanId ∨ ∃ u ∈ Δ, u.spanId = p)

/-- An emitted batch is a list of child spans followed by the root span:
the root has no parent id, every child has one, drawn strictly earlier than
its own span id, and equal to the root's span id or to the span id of
another child; all spans share the root's trace id. -/
def GoodBatch (cfg : Cfg) (b : List Span) : Prop :=
  ∃ pre root, b = pre ++ [root] ∧ root.parentId = none ∧
    ∀ s ∈ pre, s.traceId = root.traceId ∧
      ∃ ks p kp, s.spanId = cfg.spanIdF ks ∧ s.parentId = some p ∧
        p = cfg.spanIdF kp ∧ kp < ks ∧
        (p = root.spanId ∨ ∃ u ∈ pre, u.spanId = p)

/-- The interpreter invariant relating a run's inputs to its result: the
span counter grows, the new emitted batches are all well formed, and the
children list grows by a well-formed delta (empty when no context is
active). -/
def RunInv (cfg : Cfg) (ctx : Option Ctx) (ch : List Span) (st : St)
    (r : Res) : Prop :=
  st.spanCtr ≤ r.st.spanCtr ∧
  (∃ B, r.st.emitted = st.emitted ++ B ∧ ∀ b ∈ B, GoodBatch cfg b) ∧
  ∃ Δ, r.children = ch ++ Δ ∧
    (ctx = none → Δ = []) ∧
    (∀ c, ctx = some c → CtxOk cfg st c →
      DeltaOk cfg c st.spanCtr r.st.spanCtr Δ)

/-- A span used as opaque buffer cargo in the buffer claims. -/
def spX : Span := ⟨"x", 0, 0, "t", "s", none, [], [], []⟩

/-- A span whose metadata has no `kind` entry. -/
def spNoKind : Span := ⟨"n", 0, 0, "t", "s", none, [], [], []⟩

/-- A span whose metadata declares `kind="client"` plus one further entry,
with one trace-metadata entry. -/
def spClient : Span :=
  ⟨"c", 0, 0, "t", "s", some "par",
    [("kind", .vStr "client"), ("a", .vInt 5)], [("b", .vStr "x")],
    [("service.name", .vStr "svc")]⟩

/-- A placeholder ISO-formatting function for concrete evaluations. -/
def iso0 : Rat → String := fun _ => ""

/-- A child span dict (has `"trace.parent_id"`), carrying a top-level
`"service.name"` key so that the document encoder accepts it. -/
def cdict : PyDict :=
  [("name", .vs "c"), ("time", .vq 0), ("duration_ms", .vq 0),
    ("trace.trace_id", .vs "t"), ("trace.span_id", .vs "s1"),
    ("trace.parent_id", .vs "s0"), ("metadata", .vm []),
    ("trace_metadata", .vm []), ("tracer_metadata", .vm []),
    ("service.name", .vs "svc")]

/-- A root span dict (no `"trace.parent_id"`), carrying a top-level
`"service.name"` key so that the document encoder accepts it. -/
def rdict : PyDict :=
  [("name", .vs "r"), ("time", .vq 0), ("duration_ms", .vq 0),
    ("trace.trace_id", .vs "t"), ("trace.span_id", .vs "s0"),
    ("metadata", .vm []), ("trace_metadata", .vm []),
    ("tracer_metadata", .vm []), ("service.name", .vs "svc")]

/-- An id factory whose injectivity is elementary: unary strings. -/
def wIdF : Nat → String := fun n => List.asString (List.replicate n (Char.ofNat 120))

/-- A configuration with a provably injective span-id factory. -/
def wcfg : Cfg := {testCfg with spanIdF := wIdF}

/-- The test configuration with sampling probability 0 (and all random
draws equal to 0, a value `random()` can return). -/
def cfg0draw0 : Cfg := {testCfg with trace_chance := some 0}

/-- The test configuration with sampling probability 0 and all draws
strictly positive. -/
def cfg0pos : Cfg := {testCfg with
  trace_chance := some 0
  draws := fun _ => 1}

/-- The test configuration with sampling probability 1. -/
def cfg1 : Cfg := {testCfg with trace_chance := some 1}





/-- Lookup distributes over append, preferring the left list. -/
theorem lookup_append {α β : Type} [BEq α] (k : α) (l1 l2 : List (α × β)) :
    List.lookup k (l1 ++ l2) = (List.lookup k l1).or (List.lookup k l2) := by
  induction l1 with
  | nil => simp [List.lookup]
  | cons a l ih =>
      obtain ⟨a1, a2⟩ := a
      cases h : k == a1 <;> simp [List.lookup, h, ih]

/-- Lookup after a key-preserving map rewrites the found value. -/
theorem lookup_map_val {β γ : Type} (k : String)
    (l : List (String × β)) (g : String → β → γ) :
    List.lookup k (l.map (fun kv => (kv.1, g kv.1 kv.2)))
      = (List.lookup k l).map (g k) := by
  induction l with
  | nil => simp [List.lookup]
  | cons a l ih =>
      obtain ⟨a1, a2⟩ := a
      by_cases hk : k = a1
      · subst hk
        simp [List.lookup]
      · have h : (k == a1) = false := by simpa using hk
        simp [List.lookup, h, ih]

/-- Lookup in a list filtered by a predicate on keys. -/
theorem lookup_filter_key {β : Type} (k : String)
    (l : List (String × β)) (p : String → Bool) :
    List.lookup k (l.filter (fun kv => p kv.1))
      = if p k then List.lookup k l else none := by
  induction l with
  | nil => simp [List.lookup]
  | cons a l ih =>
      obtain ⟨a1, a2⟩ := a
      by_cases hk : k = a1
      · subst hk
        cases hp : p k <;> simp [List.filter, List.lookup, hp, ih]
      · have h : (k == a1) = false := by simpa using hk
        cases hp : p a1 <;> simp [List.filter, List.lookup, hp, h, ih]

/-- Looking a key up in a Python dict merge `a | b`: the right dict wins,
the left is the fallback. -/
theorem lookup_pyMerge (k : String) (a b : Doc) :
    List.lookup k (pyMerge a b) = (List.lookup k b).or (List.lookup k a) := by
  unfold pyMerge
  rw [lookup_append, lookup_map_val k a (mergeVal b),
    lookup_filter_key k b (fun k0 => (List.lookup k0 a).isNone)]
  cases ha : List.lookup k a <;> cases hb : List.lookup k b <;>
    simp [ha, hb, Option.or, mergeVal]

/-- Lookup after the in-place update branch of `dictSet`. -/
theorem lookup_map_set (m : Metadata) (k : String) (v : Value) :
    List.lookup k (m.map (fun kv => if kv.1 = k then (k, v) else kv))
      = if (List.lookup k m).isSome then some v else none := by
  induction m with
  | nil => simp [List.lookup]
  | cons a l ih =>
      obtain ⟨a1, a2⟩ := a
      simp only [List.map_cons]
      by_cases hk : a1 = k
      · subst hk
        rw [if_pos rfl]
        simp [List.lookup]
      · rw [if_neg (by simpa using hk)]
        have h : (k == a1) = false := by simpa using Ne.symm hk
        simp only [List.lookup, h]
        exact ih

/-- The in-place update branch of `dictSet` leaves other keys alone. -/
theorem lookup_map_set_ne (m : Metadata) (k k2 : String) (v : Value)
    (hne : k2 ≠ k) :
    List.lookup k2 (m.map (fun kv => if kv.1 = k then (k, v) else kv))
      = List.lookup k2 m := by
  induction m with
  | nil => simp
  | cons a l ih =>
      obtain ⟨a1, a2⟩ := a
      simp only [List.map_cons]
      by_cases hk : a1 = k
      · subst hk
        rw [if_pos rfl]
        have h : (k2 == a1) = false := by simpa using hne
        simp [List.lookup, h, ih]
      · rw [if_neg (by simpa using hk)]
        cases h : k2 == a1 <;> simp [List.lookup, h, ih]

/-- Assigning a key makes it present with the assigned value. -/
theorem lookup_dictSet (m : Metadata) (k : String) (v : Value) :
    List.lookup k (dictSet m k v) = some v := by
  unfold dictSet
  by_cases h : (List.lookup k m).isSome
  · rw [if_pos h, lookup_map_set, if_pos h]
  · rw [if_neg h, lookup_append]
    have hm : List.lookup k m = none := by
      cases hm : List.lookup k m
      · rfl
      · simp [hm] at h
    simp [hm, List.lookup, Option.or]

/-- Assigning one key leaves the others unchanged. -/
theorem lookup_dictSet_ne (m : Metadata) (k k2 : String) (v : Value)
    (h : k2 ≠ k) : List.lookup k2 (dictSet m k v) = List.lookup k2 m := by
  unfold dictSet
  by_cases hs : (List.lookup k m).isSome
  · rw [if_pos hs, lookup_map_set_ne m k k2 v h]
  · rw [if_neg hs, lookup_append]
    have hb : (k2 == k) = false := by simpa using h
    cases hm : List.lookup k2 m <;> simp [List.lookup, hb, Option.or, hm]

/-- A well-formed context stays well formed as the span counter grows. -/
theorem CtxOk.mono {cfg : Cfg} {st st2 : St} {c : Ctx}
    (h : CtxOk cfg st c) (hle : st.spanCtr ≤ st2.spanCtr) :
    CtxOk cfg st2 c := by
  obtain ⟨k0, hk0, hc⟩ := h
  exact ⟨k0, lt_of_lt_of_le hk0 hle, hc⟩

/-- Two consecutive child-span deltas combine. -/
theorem DeltaOk.union {cfg : Cfg} {c : Ctx} {lo m hi : Nat}
    {d1 d2 : List Span} (h1 : DeltaOk cfg c lo m d1)
    (h2 : DeltaOk cfg c m hi d2) (hlo : lo ≤ m) (hhi : m ≤ hi) :
    DeltaOk cfg c lo hi (d1 ++ d2) := by
  intro s hs
  rcases List.mem_append.1 hs with hs1 | hs2
  · obtain ⟨ht, hm, ks, p, kp, h⟩ := h1 s hs1
    refine ⟨ht, hm, ks, p, kp, h.1, h.2.1, by omega, h.2.2.2.1, h.2.2.2.2.1,
      h.2.2.2.2.2.1, ?_⟩
    rcases h.2.2.2.2.2.2 with hp | ⟨u, hu, hup⟩
    · exact Or.inl hp
    · exact Or.inr ⟨u, List.mem_append_left _ hu, hup⟩
  · obtain ⟨ht, hm, ks, p, kp, h⟩ := h2 s hs2
    refine ⟨ht, hm, ks, p, kp, h.1, by omega, h.2.2.1, h.2.2.2.1,
      h.2.2.2.2.1, h.2.2.2.2.2.1, ?_⟩
    rcases h.2.2.2.2.2.2 with hp | ⟨u, hu, hup⟩
    · exact Or.inl hp
    · exact Or.inr ⟨u, List.mem_append_right _ hu, hup⟩

/-- The sampling check leaves the span counter alone. -/
theorem sampleCheck_spanCtr (cfg : Cfg) (st : St) :
    (sampleCheck cfg st).2.spanCtr = st.spanCtr := by
  cases h : cfg.trace_chance <;> simp [sampleCheck, h]

/-- The sampling check leaves the emitted batches alone. -/
theorem sampleCheck_emitted (cfg : Cfg) (st : St) :
    (sampleCheck cfg st).2.emitted = st.emitted := by
  cases h : cfg.trace_chance <;> simp [sampleCheck, h]

/-- A run that changes nothing but the exception satisfies the invariant. -/
theorem RunInv.base {cfg : Cfg} {ctx : Option Ctx} {ch : List Span} {st : St}
    {e : Option String} : RunInv cfg ctx ch st ⟨ch, st, e⟩ := by
  refine ⟨le_rfl, ⟨[], by simp, by simp⟩, [], by simp, fun _ => rfl, ?_⟩
  intro c hc hctx s hs
  simp at hs

/-- The invariant transfers across a start state with the same span counter
and emitted batches. -/
theorem RunInv.cast {cfg : Cfg} {ctx : Option Ctx} {ch : List Span}
    {st st2 : St} {r : Res} (h : RunInv cfg ctx ch st2 r)
    (hs : st2.spanCtr = st.spanCtr) (he : st2.emitted = st.emitted) :
    RunInv cfg ctx ch st r := by
  obtain ⟨h1, ⟨B, hB, hBg⟩, Δ, hΔ, hn, hsome⟩ := h
  refine ⟨by omega, ⟨B, by rw [← he]; exact hB, hBg⟩, Δ, hΔ, hn, ?_⟩
  intro c hc hctx
  obtain ⟨k0, hk0, hcs⟩ := hctx
  have hD := hsome c hc ⟨k0, by omega, hcs⟩
  intro s hs2
  obtain ⟨ht, hm, ks, p, kp, h1, h2, h3, h4, h5, h6, h7⟩ := hD s hs2
  exact ⟨ht, hm, ks, p, kp, h1, by omega, h3, h4, h5, h6, h7⟩

/-- Sequential composition of the invariant. -/
theorem RunInv.seq {cfg : Cfg} {ctx : Option Ctx} {ch : List Span} {st : St}
    {r1 r2 : Res} (h1 : RunInv cfg ctx ch st r1)
    (h2 : RunInv cfg ctx r1.children r1.st r2) (e : Option String) :
    RunInv cfg ctx ch st ⟨r2.children, r2.st, e⟩ := by
  obtain ⟨a1, ⟨B1, hB1, hG1⟩, Δ1, hΔ1, hn1, hs1⟩ := h1
  obtain ⟨a2, ⟨B2, hB2, hG2⟩, Δ2, hΔ2, hn2, hs2⟩ := h2
  refine ⟨le_trans a1 a2,
    ⟨B1 ++ B2, by rw [hB2, hB1, List.append_assoc], ?_⟩,
    Δ1 ++ Δ2, by rw [hΔ2, hΔ1, List.append_assoc], ?_, ?_⟩
  · intro b hb
    rcases List.mem_append.1 hb with h | h
    · exact hG1 b h
    · exact hG2 b h
  · intro hn
    rw [hn1 hn, hn2 hn]
    rfl
  · intro c hc hctx
    exact DeltaOk.union (hs1 c hc hctx)
      (hs2 c hc (hctx.mono a1)) a1 a2

/-- The `raise` branch of the interpreter, in applied form. -/
theorem runCall_raise_eq (cfg : Cfg) (ctx : Option Ctx) (ch : List Span)
    (st : St) (e : String) :
    runCall cfg ctx ch st (.raise e) = ⟨ch, st, some e⟩ := rfl

/-- The `catchAll` branch of the interpreter, in applied form. -/
theorem runCall_catchAll_eq (cfg : Cfg) (ctx : Option Ctx) (ch : List Span)
    (st : St) (body : List Call) :
    runCall cfg ctx ch st (.catchAll body)
      = ⟨(runCalls cfg ctx ch st body).children,
          (runCalls cfg ctx ch st body).st, none⟩ := rfl

/-- The no-context branch of `_span`, in applied form. -/
theorem runCall_span_none_eq (cfg : Cfg) (ch : List Span) (st : St)
    (name : String) (kwargs : Metadata) (body : List Call) :
    runCall cfg none ch st (.span name kwargs body)
      = runCalls cfg none ch {st with yields := st.yields ++ [kwargs]}
          body := rfl

/-- The active-context branch of `_span`, in applied form. -/
theorem runCall_span_some_eq (cfg : Cfg) (c : Ctx) (ch : List Span) (st : St)
    (name : String) (kwargs : Metadata) (body : List Call) :
    runCall cfg (some c) ch st (.span name kwargs body)
      = spanWrap cfg c st name kwargs
          (runCalls cfg (some {c with spanId := cfg.spanIdF st.spanCtr}) ch
            (spanState st kwargs) body) := rfl

/-- The `_trace` branch of the interpreter, in applied form. -/
theorem runCall_trace_eq (cfg : Cfg) (ctx : Option Ctx) (ch : List Span)
    (st : St) (name : String) (tmeta kwargs : Metadata) (body : List Call) :
    runCall cfg ctx ch st (.trace name tmeta kwargs body)
      = if (sampleCheck cfg st).1 then
          runCalls cfg ctx ch
            {(sampleCheck cfg st).2 with
              yields := (sampleCheck cfg st).2.yields ++ [[]]} body
        else
          traceWrap cfg ch st name tmeta kwargs
            (runCalls cfg (some (traceCtx cfg st tmeta)) []
              (traceState cfg st kwargs) body) := rfl

/-- The empty block, in applied form. -/
theorem runCalls_nil_eq (cfg : Cfg) (ctx : Option Ctx) (ch : List Span)
    (st : St) : runCalls cfg ctx ch st [] = ⟨ch, st, none⟩ := rfl

/-- A nonempty block, in applied form. -/
theorem runCalls_cons_eq (cfg : Cfg) (ctx : Option Ctx) (ch : List Span)
    (st : St) (c : Call) (rest : List Call) :
    runCalls cfg ctx ch st (c :: rest)
      = (match (runCall cfg ctx ch st c).exc with
          | some e => ⟨(runCall cfg ctx ch st c).children,
              (runCall cfg ctx ch st c).st, some e⟩
          | none => runCalls cfg ctx (runCall cfg ctx ch st c).children
              (runCall cfg ctx ch st c).st rest) := rfl

/-- The epilogue of `_span` preserves the invariant: the body's delta plus
the one appended span form a well-formed delta for the enclosing context. -/
theorem spanWrap_inv {cfg : Cfg} {c : Ctx} {ch : List Span} {st : St}
    {name : String} {kwargs : Metadata} {r : Res}
    (hb : RunInv cfg (some {c with spanId := cfg.spanIdF st.spanCtr}) ch
      (spanState st kwargs) r) :
    RunInv cfg (some c) ch st (spanWrap cfg c st name kwargs r) := by
  obtain ⟨h1, ⟨B, hB, hBg⟩, Δb, hΔ, hnone, hsome⟩ := hb
  have h1a : st.spanCtr + 1 ≤ r.st.spanCtr := h1
  have hBa : r.st.emitted = st.emitted ++ B := hB
  refine ⟨?_, ⟨B, hBa, hBg⟩, ?_⟩
  · show st.spanCtr ≤ r.st.spanCtr
    omega
  · refine ⟨Δb ++ [spanRecord cfg c st name kwargs r], ?_, ?_, ?_⟩
    · show r.children ++ [spanRecord cfg c st name kwargs r] = _
      rw [hΔ, List.append_assoc]
    · intro h
      exact absurd h (Option.some_ne_none c)
    · intro c0 hc0 hctx
      injection hc0 with hcc
      subst hcc
      obtain ⟨k0, hk0, hcs⟩ := hctx
      have hD := hsome {c with spanId := cfg.spanIdF st.spanCtr} rfl
        ⟨st.spanCtr, Nat.lt_succ_self st.spanCtr, rfl⟩
      intro s hs
      rcases List.mem_append.1 hs with hsb | hsp
      · obtain ⟨ht, hm, ks, p, kp, e1, e2, e3, e4, e5, e6, e7⟩ := hD s hsb
        have e2a : st.spanCtr + 1 ≤ ks := e2
        refine ⟨ht, hm, ks, p, kp, e1, by omega, e3, e4, e5, e6, ?_⟩
        rcases e7 with hp | ⟨u, hu, hup⟩
        · exact Or.inr ⟨spanRecord cfg c st name kwargs r,
            List.mem_append_right _ (List.mem_singleton.2 rfl), hp.symm⟩
        · exact Or.inr ⟨u, List.mem_append_left _ hu, hup⟩
      · have hseq : s = spanRecord cfg c st name kwargs r :=
          List.mem_singleton.1 hsp
        subst hseq
        refine ⟨rfl, rfl, st.spanCtr, c.spanId, k0, rfl, le_rfl, ?_, rfl,
          hcs, hk0, Or.inl rfl⟩
        show st.spanCtr < r.st.spanCtr
        omega

/-- The epilogue of `_trace` preserves the invariant: the caller's children
are untouched and the emitted batch is well formed. -/
theorem traceWrap_inv {cfg : Cfg} {ctx : Option Ctx} {ch : List Span}
    {st : St} {name : String} {tmeta kwargs : Metadata} {r : Res}
    (hb : RunInv cfg (some (traceCtx cfg st tmeta)) []
      (traceState cfg st kwargs) r) :
    RunInv cfg ctx ch st (traceWrap cfg ch st name tmeta kwargs r) := by
  obtain ⟨h1, ⟨B, hB, hBg⟩, Δb, hΔ, hnone, hsome⟩ := hb
  have hsc : (sampleCheck cfg st).2.spanCtr = st.spanCtr :=
    sampleCheck_spanCtr cfg st
  have hse : (sampleCheck cfg st).2.emitted = st.emitted :=
    sampleCheck_emitted cfg st
  have h1a : (sampleCheck cfg st).2.spanCtr + 1 ≤ r.st.spanCtr := h1
  have hBa : r.st.emitted = (sampleCheck cfg st).2.emitted ++ B := hB
  have hΔa : r.children = Δb := by
    have : r.children = [] ++ Δb := hΔ
    simpa using this
  have hD := hsome (traceCtx cfg st tmeta) rfl
    ⟨(sampleCheck cfg st).2.spanCtr,
      Nat.lt_succ_self (sampleCheck cfg st).2.spanCtr, rfl⟩
  refine ⟨?_, ?_, ?_⟩
  · show st.spanCtr ≤ r.st.spanCtr
    omega
  · refine ⟨B ++ [r.children ++ [rootRecord cfg st name tmeta kwargs r]],
      ?_, ?_⟩
    · show r.st.emitted
          ++ [r.children ++ [rootRecord cfg st name tmeta kwargs r]]
        = st.emitted
          ++ (B ++ [r.children ++ [rootRecord cfg st name tmeta kwargs r]])
      rw [hBa, hse, List.append_assoc]
    · intro b hb2
      rcases List.mem_append.1 hb2 with hbB | hbL
      · exact hBg b hbB
      · have hbeq : b = r.children ++ [rootRecord cfg st name tmeta kwargs r] :=
          List.mem_singleton.1 hbL
        subst hbeq
        refine ⟨Δb, rootRecord cfg st name tmeta kwargs r, by rw [hΔa], rfl, ?_⟩
        intro s hs
        obtain ⟨ht, hm, ks, p, kp, e1, e2, e3, e4, e5, e6, e7⟩ := hD s hs
        refine ⟨ht, ks, p, kp, e1, e4, e5, e6, ?_⟩
        rcases e7 with hp | ⟨u, hu, hup⟩
        · exact Or.inl hp
        · exact Or.inr ⟨u, hu, hup⟩
  · refine ⟨[], (List.append_nil ch).symm, fun _ => rfl, ?_⟩
    intro c0 hc0 hctx s hs
    exact absurd hs (List.not_mem_nil s)

/-- Every call has positive size. -/
theorem csize_pos (c : Call) : 1 ≤ csize c := by
  cases c <;> simp [csize]

/-- The interpreter invariant, by strong induction on the size measure. -/
theorem runInv_all (cfg : Cfg) : ∀ n : Nat,
    (∀ c : Call, csize c ≤ n → ∀ ctx ch st,
      RunInv cfg ctx ch st (runCall cfg ctx ch st c)) ∧
    (∀ cs : List Call, csizes cs ≤ n → ∀ ctx ch st,
      RunInv cfg ctx ch st (runCalls cfg ctx ch st cs)) := by
  intro n
  induction n using Nat.strong_induction_on with
  | _ n IH =>
  have hcall : ∀ c : Call, csize c ≤ n → ∀ ctx ch st,
      RunInv cfg ctx ch st (runCall cfg ctx ch st c) := by
    intro c hc ctx ch st
    cases c with
    | raise e =>
        rw [runCall_raise_eq]
        exact RunInv.base
    | catchAll body =>
        have hlt : csizes body < n := by
          simp only [csize] at hc
          omega
        rw [runCall_catchAll_eq]
        exact (IH (csizes body) hlt).2 body le_rfl ctx ch st
    | span name kwargs body =>
        have hlt : csizes body < n := by
          simp only [csize] at hc
          omega
        have hbody : ∀ ctx2 ch2 st2,
            RunInv cfg ctx2 ch2 st2 (runCalls cfg ctx2 ch2 st2 body) :=
          fun ctx2 ch2 st2 => (IH (csizes body) hlt).2 body le_rfl ctx2 ch2 st2
        cases ctx with
        | none =>
            rw [runCall_span_none_eq]
            exact RunInv.cast (hbody none ch _) rfl rfl
        | some c =>
            rw [runCall_span_some_eq]
            exact spanWrap_inv (hbody _ ch _)
    | trace name tmeta kwargs body =>
        have hlt : csizes body < n := by
          simp only [csize] at hc
          omega
        have hbody : ∀ ctx2 ch2 st2,
            RunInv cfg ctx2 ch2 st2 (runCalls cfg ctx2 ch2 st2 body) :=
          fun ctx2 ch2 st2 => (IH (csizes body) hlt).2 body le_rfl ctx2 ch2 st2
        rw [runCall_trace_eq]
        by_cases hsc : (sampleCheck cfg st).1
        · rw [if_pos hsc]
          exact RunInv.cast (hbody ctx ch _) (sampleCheck_spanCtr cfg st)
            (sampleCheck_emitted cfg st)
        · rw [if_neg hsc]
          exact traceWrap_inv (hbody _ [] _)
  refine ⟨hcall, ?_⟩
  intro cs hcs ctx ch st
  cases cs with
  | nil =>
      rw [runCalls_nil_eq]
      exact RunInv.base
  | cons c rest =>
      have hc : csize c ≤ n := by
        simp only [csizes] at hcs
        omega
      have hrest : csizes rest < n := by
        have := csize_pos c
        simp only [csizes] at hcs
        omega
      have h1 := hcall c hc ctx ch st
      rw [runCalls_cons_eq]
      cases hexc : (runCall cfg ctx ch st c).exc with
      | some e =>
          simp only [hexc]
          exact h1
      | none =>
          simp only [hexc]
          have h2 := (IH (csizes rest) hrest).2 rest le_rfl ctx
            (runCall cfg ctx ch st c).children (runCall cfg ctx ch st c).st
          exact RunInv.seq h1 h2 _

/-- The interpreter invariant for a single call. -/
theorem runCall_inv (cfg : Cfg) (ctx : Option Ctx) (ch : List Span) (st : St)
    (c : Call) : RunInv cfg ctx ch st (runCall cfg ctx ch st c) :=
  (runInv_all cfg (csize c)).1 c le_rfl ctx ch st

/-- The interpreter invariant for a block of calls. -/
theorem runCalls_inv (cfg : Cfg) (ctx : Option Ctx) (ch : List Span)
    (st : St) (cs : List Call) :
    RunInv cfg ctx ch st (runCalls cfg ctx ch st cs) :=
  (runInv_all cfg (csizes cs)).2 cs le_rfl ctx ch st

/-- Every emitted batch of a top-level run is well formed. -/
theorem emitted_goodBatch (cfg : Cfg) (calls : List Call) :
    ∀ b ∈ (runTop cfg calls).st.emitted, GoodBatch cfg b := by
  obtain ⟨h1, ⟨B, hB, hBg⟩, hΔ⟩ := runCalls_inv cfg none [] st0 calls
  intro b hb
  apply hBg
  have hB2 : (runTop cfg calls).st.emitted = B := by
    show (runCalls cfg none [] st0 calls).st.emitted = B
    rw [hB]
    rfl
  rwa [hB2] at hb

/-- C10: for every locally-started trace completed by the interpreter,
the batch handed to receivers ends with the root span: its last element is
the unique span without a parent id, appended after all child spans. -/
theorem C10_root_last (cfg : Cfg) (calls : List Call) :
    ∀ b ∈ (runTop cfg calls).st.emitted, ∃ pre root,
      b = pre ++ [root] ∧ root.parentId = none ∧
      ∀ s ∈ pre, s.parentId ≠ none := by
  intro b hb
  obtain ⟨pre, root, hb2, hroot, hpre⟩ := emitted_goodBatch cfg calls b hb
  refine ⟨pre, root, hb2, hroot, ?_⟩
  intro s hs
  obtain ⟨ht, ks, p, kp, e1, e2, e3, e4, e5⟩ := hpre s hs
  rw [e2]
  simp

/-- The head of a nonempty list is a member. -/
theorem headD_mem {α : Type} (l : List α) (d : α) (h : l ≠ []) :
    l.headD d ∈ l := by
  cases l with
  | nil => exact absurd rfl h
  | cons a t => simp

/-- Witness for C10 on a concrete two-span trace. -/
theorem C10_root_last_witness :
    ((runTop testCfg [.trace "T" [] [] [.span "A" [] []]]).st.emitted.headD []
        ∈ (runTop testCfg [.trace "T" [] [] [.span "A" [] []]]).st.emitted) ∧
    (∃ pre root,
      (runTop testCfg [.trace "T" [] [] [.span "A" [] []]]).st.emitted.headD []
          = pre ++ [root] ∧ root.parentId = none ∧
        ∀ s ∈ pre, s.parentId ≠ none) := by
  have hne : (runTop testCfg
      [.trace "T" [] [] [.span "A" [] []]]).st.emitted ≠ [] := by
    intro h
    have hl : (runTop testCfg
        [.trace "T" [] [] [.span "A" [] []]]).st.emitted.length = 1 := by rfl
    rw [h] at hl
    simp at hl
  have hmem := headD_mem _ ([] : List Span) hne
  exact ⟨hmem, C10_root_last testCfg [.trace "T" [] [] [.span "A" [] []]] _
    hmem⟩

set_option maxHeartbeats 1000000 in
/-- C1: in every emitted batch exactly one span lacks a parent id and every
other span's parent id is the span id of a different span of the same
batch; the `T`/`A`/`B` nesting emits one batch of three spans, in exit
order `B`, `A`, `T`, linked parent-to-child and sharing one trace id. -/
theorem C1_parent_linkage (cfg : Cfg) (calls : List Call)
    (hinj : Function.Injective cfg.spanIdF) :
    (∀ b ∈ (runTop cfg calls).st.emitted,
      (b.filter (fun s => s.parentId = none)).length = 1 ∧
      ∀ s ∈ b, ∀ p, s.parentId = some p →
        ∃ s2 ∈ b, s2.spanId = p ∧ s2.spanId ≠ s.spanId) ∧
    (cfg.trace_chance = none →
      (runTop cfg
          [.trace "T" [] [] [.span "A" [] [.span "B" [] []]]]).st.emitted.map
          (fun b => b.map (fun s => (s.name, s.spanId, s.parentId, s.traceId)))
        = [[("B", cfg.spanIdF 2, some (cfg.spanIdF 1), cfg.traceIdF 0),
            ("A", cfg.spanIdF 1, some (cfg.spanIdF 0), cfg.traceIdF 0),
            ("T", cfg.spanIdF 0, none, cfg.traceIdF 0)]]) := by
  constructor
  · intro b hb
    obtain ⟨pre, root, hb2, hroot, hpre⟩ := emitted_goodBatch cfg calls b hb
    constructor
    · subst hb2
      rw [List.filter_append]
      have hpre0 : pre.filter (fun s => s.parentId = none) = [] := by
        rw [List.filter_eq_nil_iff]
        intro s hs
        obtain ⟨ht, ks, p, kp, e1, e2, e3, e4, e5⟩ := hpre s hs
        simp [e2]
      rw [hpre0]
      simp [hroot]
    · intro s hs p hp
      subst hb2
      rcases List.mem_append.1 hs with hsp | hsr
      · obtain ⟨ht, ks, p2, kp, e1, e2, e3, e4, e5⟩ := hpre s hsp
        have hpp : p2 = p := by
          rw [hp] at e2
          exact (Option.some.inj e2).symm
        subst hpp
        have hne : cfg.spanIdF kp ≠ cfg.spanIdF ks := by
          intro hcontra
          have := hinj hcontra
          omega
        rcases e5 with hto | ⟨u, hu, hup⟩
        · refine ⟨root, List.mem_append_right _ (List.mem_singleton.2 rfl),
            hto.symm, ?_⟩
          rw [← hto, e3, e1]
          exact hne
        · refine ⟨u, List.mem_append_left _ hu, hup, ?_⟩
          rw [hup, e3, e1]
          exact hne
      · have hsr2 : s = root := List.mem_singleton.1 hsr
        subst hsr2
        rw [hroot] at hp
        exact absurd hp (by simp)
  · intro hch
    have hsc : ∀ st : St, sampleCheck cfg st = (false, st) := by
      intro st
      simp [sampleCheck, hch]
    simp only [runTop, runCalls_cons_eq, runCalls_nil_eq, runCall_trace_eq,
      runCall_span_some_eq, runCall_span_none_eq, hsc, traceWrap, traceState,
      traceCtx, rootRecord, spanWrap, spanState, spanRecord]
    simp [st0]

/-- The unary id factory is injective. -/
theorem wIdF_injective : Function.Injective wIdF := by
  intro a b h
  have h2 : List.replicate a (Char.ofNat 120)
      = List.replicate b (Char.ofNat 120) := congrArg String.data h
  have h3 := congrArg List.length h2
  simpa using h3

/-- Witness for C1: the injectivity hypothesis holds for `wcfg`, and the
batch of a concrete run satisfies the linkage property. -/
theorem C1_parent_linkage_witness :
    Function.Injective wcfg.spanIdF ∧
    ((runTop wcfg [.trace "T" [] [] [.span "A" [] []]]).st.emitted.headD []
        ∈ (runTop wcfg [.trace "T" [] [] [.span "A" [] []]]).st.emitted) ∧
    ((((runTop wcfg
          [.trace "T" [] [] [.span "A" [] []]]).st.emitted.headD []).filter
        (fun s => s.parentId = none)).length = 1 ∧
      ∀ s ∈ (runTop wcfg
          [.trace "T" [] [] [.span "A" [] []]]).st.emitted.headD [],
        ∀ p, s.parentId = some p →
          ∃ s2 ∈ (runTop wcfg
              [.trace "T" [] [] [.span "A" [] []]]).st.emitted.headD [],
            s2.spanId = p ∧ s2.spanId ≠ s.spanId) ∧
    (wcfg.trace_chance = none ∧
      (runTop wcfg
          [.trace "T" [] [] [.span "A" [] [.span "B" [] []]]]).st.emitted.map
          (fun b => b.map (fun s => (s.name, s.spanId, s.parentId, s.traceId)))
        = [[("B", wcfg.spanIdF 2, some (wcfg.spanIdF 1), wcfg.traceIdF 0),
            ("A", wcfg.spanIdF 1, some (wcfg.spanIdF 0), wcfg.traceIdF 0),
            ("T", wcfg.spanIdF 0, none, wcfg.traceIdF 0)]]) := by
  have hne : (runTop wcfg
      [.trace "T" [] [] [.span "A" [] []]]).st.emitted ≠ [] := by
    intro h
    have hl : (runTop wcfg
        [.trace "T" [] [] [.span "A" [] []]]).st.emitted.length = 1 := by rfl
    rw [h] at hl
    simp at hl
  have hmem := headD_mem _ ([] : List Span) hne
  exact ⟨wIdF_injective, hmem,
    (C1_parent_linkage wcfg [.trace "T" [] [] [.span "A" [] []]]
      wIdF_injective).1 _ hmem,
    rfl,
    (C1_parent_linkage wcfg [.trace "T" [] [] [.span "A" [] []]]
      wIdF_injective).2 rfl⟩

set_option maxHeartbeats 1000000 in
/-- C6: a body raising `e` inside `_span` or `_trace` propagates `e`
unchanged, while the span is still recorded (with `error` metadata holding
the description of `e`; for `_trace` the batch is still emitted), and the
enclosing context is restored, observed by a sibling span recording the
root as its parent after the failing span was caught. -/
theorem C6_exception_capture (cfg : Cfg) (hch : cfg.trace_chance = none) :
    (∀ (c : Ctx) (ch : List Span) (st : St) (name : String)
      (kwargs : Metadata) (e : String),
      (runCall cfg (some c) ch st (.span name kwargs [.raise e])).exc
          = some e ∧
      ∃ sp, (runCall cfg (some c) ch st
            (.span name kwargs [.raise e])).children = ch ++ [sp] ∧
        List.lookup "error" sp.metadata = some (.vStr e) ∧
        sp.parentId = some c.spanId ∧ sp.traceId = c.traceId ∧
        sp.name = name) ∧
    (∀ (ctx : Option Ctx) (ch : List Span) (st : St) (name : String)
      (tmeta kwargs : Metadata) (e : String),
      (runCall cfg ctx ch st (.trace name tmeta kwargs [.raise e])).exc
          = some e ∧
      (runCall cfg ctx ch st (.trace name tmeta kwargs [.raise e])).children
          = ch ∧
      ∃ root, (runCall cfg ctx ch st
            (.trace name tmeta kwargs [.raise e])).st.emitted
          = st.emitted ++ [[root]] ∧
        List.lookup "error" root.metadata = some (.vStr e) ∧
        root.parentId = none ∧ root.name = name) ∧
    (∀ e : String,
      (runTop cfg [.trace "T" [] []
          [.catchAll [.span "A" [] [.raise e]], .span "C" [] []]]).st.emitted.map
          (fun b => b.map (fun s =>
            (s.name, s.parentId, List.lookup "error" s.metadata)))
        = [[("A", some (cfg.spanIdF 0), some (.vStr e)),
            ("C", some (cfg.spanIdF 0), none),
            ("T", none, none)]]) := by
  have hsc : ∀ st : St, sampleCheck cfg st = (false, st) := by
    intro st
    simp [sampleCheck, hch]
  refine ⟨?_, ?_, ?_⟩
  · intro c ch st name kwargs e
    rw [runCall_span_some_eq]
    have hinner : runCalls cfg (some {c with spanId := cfg.spanIdF st.spanCtr})
        ch (spanState st kwargs) [.raise e]
        = ⟨ch, spanState st kwargs, some e⟩ := rfl
    rw [hinner]
    refine ⟨rfl, spanRecord cfg c st name kwargs ⟨ch, spanState st kwargs, some e⟩,
      rfl, ?_, rfl, rfl, rfl⟩
    show List.lookup "error" (dictSet kwargs "error" (.vStr e)) = some (.vStr e)
    exact lookup_dictSet kwargs "error" (.vStr e)
  · intro ctx ch st name tmeta kwargs e
    rw [runCall_trace_eq, hsc st]
    rw [if_neg (by simp)]
    have hinner : runCalls cfg (some (traceCtx cfg st tmeta)) []
        (traceState cfg st kwargs) [.raise e]
        = ⟨[], traceState cfg st kwargs, some e⟩ := rfl
    rw [hinner]
    refine ⟨rfl, rfl,
      rootRecord cfg st name tmeta kwargs ⟨[], traceState cfg st kwargs, some e⟩,
      ?_, ?_, rfl, rfl⟩
    · show (traceState cfg st kwargs).emitted
          ++ [[] ++ [rootRecord cfg st name tmeta kwargs
            ⟨[], traceState cfg st kwargs, some e⟩]]
        = st.emitted ++ _
      have he : (traceState cfg st kwargs).emitted = st.emitted := by
        show (sampleCheck cfg st).2.emitted = st.emitted
        rw [hsc st]
      rw [he]
      simp
    · show List.lookup "error" (dictSet kwargs "error" (.vStr e)) = some (.vStr e)
      exact lookup_dictSet kwargs "error" (.vStr e)
  · intro e
    simp only [runTop, runCalls_cons_eq, runCalls_nil_eq, runCall_trace_eq,
      runCall_span_some_eq, runCall_span_none_eq, runCall_catchAll_eq,
      runCall_raise_eq, hsc, traceWrap, traceState, traceCtx, rootRecord,
      spanWrap, spanState, spanRecord]
    simp [st0, lookup_dictSet]

/-- Witness for C6 at the test configuration. -/
theorem C6_exception_capture_witness :
    testCfg.trace_chance = none ∧
    ((runCall testCfg (some ⟨"t", [], "s"⟩) [] st0
        (.span "n" [] [.raise "boom"])).exc = some "boom" ∧
      ∃ sp, (runCall testCfg (some ⟨"t", [], "s"⟩) [] st0
            (.span "n" [] [.raise "boom"])).children = [] ++ [sp] ∧
        List.lookup "error" sp.metadata = some (.vStr "boom") ∧
        sp.parentId = some (Ctx.mk "t" [] "s").spanId ∧
        sp.traceId = (Ctx.mk "t" [] "s").traceId ∧ sp.name = "n") ∧
    (∀ e : String,
      (runTop testCfg [.trace "T" [] []
          [.catchAll [.span "A" [] [.raise e]], .span "C" [] []]]).st.emitted.map
          (fun b => b.map (fun s =>
            (s.name, s.parentId, List.lookup "error" s.metadata)))
        = [[("A", some (testCfg.spanIdF 0), some (.vStr e)),
            ("C", some (testCfg.spanIdF 0), none),
            ("T", none, none)]]) :=
  ⟨rfl, (C6_exception_capture testCfg rfl).1 ⟨"t", [], "s"⟩ [] st0 "n" []
    "boom", (C6_exception_capture testCfg rfl).2.2⟩

/-- Counterexample for C9: a `_span` call with no parent and nonempty
kwargs yields the kwargs dict as the metadata handle, not an empty one. -/
theorem C9_counterexample :
    (runCall testCfg none [] st0
        (.span "s" [("a", .vInt 1)] [])).st.yields = [[("a", .vInt 1)]] ∧
    ([("a", Value.vInt 1)] : Metadata) ≠ [] := by
  exact ⟨rfl, by simp⟩

/-- C9 (amended): a `_span` call with no explicit parent and no active
context appends nothing to the caller's children list, and with an empty
body it only records the yielded handle — which is the call-site kwargs
dict — changing nothing else and emitting nothing. -/
theorem C9_no_context_noop (cfg : Cfg) (ch : List Span) (st : St)
    (name : String) (kwargs : Metadata) (body : List Call) :
    ((runCall cfg none ch st (.span name kwargs body)).children = ch) ∧
    (runCall cfg none ch st (.span name kwargs [])
      = ⟨ch, {st with yields := st.yields ++ [kwargs]}, none⟩) := by
  constructor
  · rw [runCall_span_none_eq]
    obtain ⟨h1, hB, Δ, hΔ, hnone, hsome⟩ :=
      runCalls_inv cfg none ch {st with yields := st.yields ++ [kwargs]} body
    rw [hΔ, hnone rfl]
    simp
  · rfl

/-- Counterexample for C4: a single batch append can push the buffer past
1000 elements — an append that would exceed capacity is not dropped when
the buffer is still below capacity. -/
theorem C4_counterexample :
    (add_to_buffer (add_to_buffer [] (List.replicate 999 spX))
        [spX, spX]).length = 1001 ∧ 1000 < 1001 := by
  refine ⟨?_, by omega⟩
  have h1 : add_to_buffer [] (List.replicate 999 spX)
      = List.replicate 999 spX := by
    unfold add_to_buffer
    rw [if_pos (by simp only [List.length_nil]; omega)]
    exact List.nil_append _
  rw [h1]
  have h2 : add_to_buffer (List.replicate 999 spX) [spX, spX]
      = List.replicate 999 spX ++ [spX, spX] := by
    unfold add_to_buffer
    rw [if_pos (by rw [List.length_replicate]; omega)]
  rw [h2, List.length_append, List.length_replicate]
  rfl

/-- Folding single-span appends from a buffer below capacity fills it up
to 1000 and drops the rest. -/
theorem addSingles_aux (xs : List Span) : ∀ b : List Span,
    b.length ≤ 1000 →
    xs.foldl (fun acc x => add_to_buffer acc [x]) b
      = b ++ xs.take (1000 - b.length) := by
  induction xs with
  | nil =>
      intro b hb
      simp
  | cons x xs ih =>
      intro b hb
      simp only [List.foldl_cons]
      by_cases hlt : b.length < 1000
      · rw [show add_to_buffer b [x] = b ++ [x] from by
          simp [add_to_buffer, hlt]]
        rw [ih (b ++ [x]) (by simp; omega)]
        have h1 : 1000 - b.length = (1000 - (b ++ [x]).length) + 1 := by
          simp
          omega
        rw [h1, List.take_succ_cons]
        simp
      · have hb1000 : b.length = 1000 := by omega
        rw [show add_to_buffer b [x] = b from by simp [add_to_buffer, hlt]]
        rw [ih b hb]
        simp [hb1000]

/-- C4 (amended): an append is dropped exactly when the buffer already
holds at least 1000 spans, and otherwise the whole batch is appended (so a
multi-span batch can push the buffer past 1000); appending spans one at a
time retains the first 1000 in arrival order and drops the rest. -/
theorem C4_buffer_cap :
    (∀ xs : List Span, appendSingles xs = xs.take 1000) ∧
    (∀ b s : List Span, 1000 ≤ b.length → add_to_buffer b s = b) ∧
    (∀ b s : List Span, b.length < 1000 → add_to_buffer b s = b ++ s) := by
  refine ⟨?_, ?_, ?_⟩
  · intro xs
    have h := addSingles_aux xs [] (by simp)
    simpa [appendSingles] using h
  · intro b s h
    rw [add_to_buffer, if_neg (by omega)]
  · intro b s h
    rw [add_to_buffer, if_pos h]

/-- Witness for C4: the cap and the 1200-singles scenario at concrete
buffers. -/
theorem C4_buffer_cap_witness :
    (1000 ≤ (List.replicate 1000 spX).length ∧
      add_to_buffer (List.replicate 1000 spX) [spX]
        = List.replicate 1000 spX) ∧
    ((List.replicate 2 spX).length < 1000 ∧
      add_to_buffer (List.replicate 2 spX) [spX]
        = List.replicate 2 spX ++ [spX]) ∧
    appendSingles (List.replicate 1200 spX)
      = (List.replicate 1200 spX).take 1000 :=
  ⟨⟨by rw [List.length_replicate],
      C4_buffer_cap.2.1 _ _ (by rw [List.length_replicate])⟩,
    ⟨by rw [List.length_replicate]; omega,
      C4_buffer_cap.2.2 _ _ (by rw [List.length_replicate]; omega)⟩,
    C4_buffer_cap.1 _⟩

/-- Trace count of a block splits at the head. -/
theorem countTraces_cons (c : Call) (rest : List Call) :
    countTraces (c :: rest) = countTraces [c] + countTraces rest := by
  cases c <;> simp only [countTraces] <;> omega

/-- Recorded-call count of a block splits at the head. -/
theorem countRecorded_cons (a : Bool) (c : Call) (rest : List Call) :
    countRecorded a (c :: rest)
      = countRecorded a [c] + countRecorded a rest := by
  cases c <;> simp only [countRecorded] <;> omega

/-- Raise-freedom of a block splits at the head. -/
theorem noRaise_cons (c : Call) (rest : List Call) :
    noRaise (c :: rest) = (noRaise [c] && noRaise rest) := by
  cases c <;> simp [noRaise]

/-- Total span count is additive over batch lists. -/
theorem spentSpans_append (a b : List (List Span)) :
    spentSpans (a ++ b) = spentSpans a + spentSpans b := by
  simp [spentSpans]

/-- With sampling probability 0 and strictly positive draws, every trace
call is skipped: nothing is emitted and nothing is recorded. -/
theorem zeroChance_aux (cfg : Cfg) (hch : cfg.trace_chance = some 0)
    (hdr : ∀ i, 0 < cfg.draws i) : ∀ n : Nat,
    (∀ c : Call, csize c ≤ n → ∀ ch st,
      (runCall cfg none ch st c).st.emitted = st.emitted ∧
      (runCall cfg none ch st c).children = ch) ∧
    (∀ cs : List Call, csizes cs ≤ n → ∀ ch st,
      (runCalls cfg none ch st cs).st.emitted = st.emitted ∧
      (runCalls cfg none ch st cs).children = ch) := by
  intro n
  induction n using Nat.strong_induction_on with
  | _ n IH =>
  have hsc : ∀ st : St, (sampleCheck cfg st).1 = true := by
    intro st
    simp only [sampleCheck, hch]
    exact decide_eq_true (hdr _)
  have hcall : ∀ c : Call, csize c ≤ n → ∀ ch st,
      (runCall cfg none ch st c).st.emitted = st.emitted ∧
      (runCall cfg none ch st c).children = ch := by
    intro c hc ch st
    cases c with
    | raise e =>
        rw [runCall_raise_eq]
        exact ⟨rfl, rfl⟩
    | catchAll body =>
        have hlt : csizes body < n := by
          simp only [csize] at hc
          omega
        rw [runCall_catchAll_eq]
        exact (IH _ hlt).2 body le_rfl ch st
    | span name kwargs body =>
        have hlt : csizes body < n := by
          simp only [csize] at hc
          omega
        rw [runCall_span_none_eq]
        exact (IH _ hlt).2 body le_rfl ch
          {st with yields := st.yields ++ [kwargs]}
    | trace name tmeta kwargs body =>
        have hlt : csizes body < n := by
          simp only [csize] at hc
          omega
        rw [runCall_trace_eq, if_pos (hsc st)]
        have h := (IH _ hlt).2 body le_rfl ch
          {(sampleCheck cfg st).2 with
            yields := (sampleCheck cfg st).2.yields ++ [[]]}
        refine ⟨?_, h.2⟩
        rw [h.1]
        exact sampleCheck_emitted cfg st
  refine ⟨hcall, ?_⟩
  intro cs hcs ch st
  cases cs with
  | nil =>
      rw [runCalls_nil_eq]
      exact ⟨rfl, rfl⟩
  | cons c rest =>
      have hc : csize c ≤ n := by
        simp only [csizes] at hcs
        omega
      have hrest : csizes rest < n := by
        have := csize_pos c
        simp only [csizes] at hcs
        omega
      have h1 := hcall c hc ch st
      rw [runCalls_cons_eq]
      cases hexc : (runCall cfg none ch st c).exc with
      | some e =>
          simp only [hexc]
          exact ⟨h1.1, h1.2⟩
      | none =>
          simp only [hexc]
          have h2 := (IH _ hrest).2 rest le_rfl
            (runCall cfg none ch st c).children (runCall cfg none ch st c).st
          exact ⟨h2.1.trans h1.1, h2.2.trans h1.2⟩

/-- With sampling probability 1 and draws below 1, no trace is skipped:
without raises, each trace call emits one batch, and the span count grows
by one per trace call and per span call under an active context. -/
theorem oneChance_aux (cfg : Cfg) (hch : cfg.trace_chance = some 1)
    (hdr : ∀ i, cfg.draws i < 1) : ∀ n : Nat,
    (∀ c : Call, csize c ≤ n → noRaise [c] = true → ∀ ctx ch st,
      (runCall cfg ctx ch st c).exc = none ∧
      (runCall cfg ctx ch st c).children.length
          + spentSpans (runCall cfg ctx ch st c).st.emitted
        = ch.length + spentSpans st.emitted + countRecorded ctx.isSome [c] ∧
      (runCall cfg ctx ch st c).st.emitted.length
        = st.emitted.length + countTraces [c]) ∧
    (∀ cs : List Call, csizes cs ≤ n → noRaise cs = true → ∀ ctx ch st,
      (runCalls cfg ctx ch st cs).exc = none ∧
      (runCalls cfg ctx ch st cs).children.length
          + spentSpans (runCalls cfg ctx ch st cs).st.emitted
        = ch.length + spentSpans st.emitted + countRecorded ctx.isSome cs ∧
      (runCalls cfg ctx ch st cs).st.emitted.length
        = st.emitted.length + countTraces cs) := by
  intro n
  induction n using Nat.strong_induction_on with
  | _ n IH =>
  have hsc : ∀ st : St, (sampleCheck cfg st).1 = false := by
    intro st
    simp only [sampleCheck, hch]
    exact decide_eq_false (not_lt.2 (le_of_lt (hdr _)))
  have hcall : ∀ c : Call, csize c ≤ n → noRaise [c] = true → ∀ ctx ch st,
      (runCall cfg ctx ch st c).exc = none ∧
      (runCall cfg ctx ch st c).children.length
          + spentSpans (runCall cfg ctx ch st c).st.emitted
        = ch.length + spentSpans st.emitted + countRecorded ctx.isSome [c] ∧
      (runCall cfg ctx ch st c).st.emitted.length
        = st.emitted.length + countTraces [c] := by
    intro c hc hnr ctx ch st
    cases c with
    | raise e =>
        simp [noRaise] at hnr
    | catchAll body =>
        have hlt : csizes body < n := by
          simp only [csize] at hc
          omega
        have hnb : noRaise body = true := by
          simpa [noRaise] using hnr
        rw [runCall_catchAll_eq]
        have h := (IH _ hlt).2 body le_rfl hnb ctx ch st
        refine ⟨rfl, ?_, ?_⟩
        · simp only [countRecorded]
          have := h.2.1
          omega
        · simp only [countTraces]
          have := h.2.2
          omega
    | span name kwargs body =>
        have hlt : csizes body < n := by
          simp only [csize] at hc
          omega
        have hnb : noRaise body = true := by
          simpa [noRaise] using hnr
        cases ctx with
        | none =>
            rw [runCall_span_none_eq]
            have h := (IH _ hlt).2 body le_rfl hnb none ch
              {st with yields := st.yields ++ [kwargs]}
            have h21 : (runCalls cfg none ch
                  {st with yields := st.yields ++ [kwargs]} body).children.length
                + spentSpans (runCalls cfg none ch
                  {st with yields := st.yields ++ [kwargs]} body).st.emitted
                = ch.length + spentSpans st.emitted
                  + countRecorded false body := h.2.1
            have h22 : (runCalls cfg none ch
                  {st with yields := st.yields ++ [kwargs]} body).st.emitted.length
                = st.emitted.length + countTraces body := h.2.2
            have hcr : countRecorded (Option.isSome (none : Option Ctx))
                [Call.span name kwargs body] = countRecorded false body := by
              simp [countRecorded]
            have hct : countTraces [Call.span name kwargs body]
                = countTraces body := by
              simp [countTraces]
            refine ⟨h.1, ?_, ?_⟩
            · rw [hcr]
              omega
            · rw [hct]
              omega
        | some c0 =>
            rw [runCall_span_some_eq]
            have h := (IH _ hlt).2 body le_rfl hnb
              (some {c0 with spanId := cfg.spanIdF st.spanCtr}) ch
              (spanState st kwargs)
            have h21 : (runCalls cfg
                  (some {c0 with spanId := cfg.spanIdF st.spanCtr}) ch
                  (spanState st kwargs) body).children.length
                + spentSpans (runCalls cfg
                  (some {c0 with spanId := cfg.spanIdF st.spanCtr}) ch
                  (spanState st kwargs) body).st.emitted
                = ch.length + spentSpans st.emitted
                  + countRecorded true body := h.2.1
            have h22 : (runCalls cfg
                  (some {c0 with spanId := cfg.spanIdF st.spanCtr}) ch
                  (spanState st kwargs) body).st.emitted.length
                = st.emitted.length + countTraces body := h.2.2
            have hcr : countRecorded (Option.isSome (some c0))
                [Call.span name kwargs body] = 1 + countRecorded true body := by
              simp [countRecorded]
            have hct : countTraces [Call.span name kwargs body]
                = countTraces body := by
              simp [countTraces]
            refine ⟨h.1, ?_, ?_⟩
            · show ((runCalls cfg
                    (some {c0 with spanId := cfg.spanIdF st.spanCtr}) ch
                    (spanState st kwargs) body).children
                  ++ [spanRecord cfg c0 st name kwargs (runCalls cfg
                    (some {c0 with spanId := cfg.spanIdF st.spanCtr}) ch
                    (spanState st kwargs) body)]).length
                  + spentSpans (runCalls cfg
                    (some {c0 with spanId := cfg.spanIdF st.spanCtr}) ch
                    (spanState st kwargs) body).st.emitted
                = ch.length + spentSpans st.emitted
                  + countRecorded (Option.isSome (some c0))
                    [Call.span name kwargs body]
              rw [List.length_append, hcr]
              simp only [List.length_singleton]
              omega
            · show (runCalls cfg
                  (some {c0 with spanId := cfg.spanIdF st.spanCtr}) ch
                  (spanState st kwargs) body).st.emitted.length
                = st.emitted.length + countTraces [Call.span name kwargs body]
              rw [hct]
              omega
    | trace name tmeta kwargs body =>
        have hlt : csizes body < n := by
          simp only [csize] at hc
          omega
        have hnb : noRaise body = true := by
          simpa [noRaise] using hnr
        rw [runCall_trace_eq, if_neg (by rw [hsc st]; exact Bool.false_ne_true)]
        have h := (IH _ hlt).2 body le_rfl hnb
          (some (traceCtx cfg st tmeta)) [] (traceState cfg st kwargs)
        have h21 : (runCalls cfg (some (traceCtx cfg st tmeta)) []
              (traceState cfg st kwargs) body).children.length
            + spentSpans (runCalls cfg (some (traceCtx cfg st tmeta)) []
              (traceState cfg st kwargs) body).st.emitted
            = 0 + spentSpans (sampleCheck cfg st).2.emitted
              + countRecorded true body := h.2.1
        have h22 : (runCalls cfg (some (traceCtx cfg st tmeta)) []
              (traceState cfg st kwargs) body).st.emitted.length
            = (sampleCheck cfg st).2.emitted.length + countTraces body := h.2.2
        rw [sampleCheck_emitted] at h21 h22
        have hcr : countRecorded ctx.isSome
            [Call.trace name tmeta kwargs body]
            = 1 + countRecorded true body := by
          simp [countRecorded]
        have hct : countTraces [Call.trace name tmeta kwargs body]
            = 1 + countTraces body := by
          simp [countTraces]
        refine ⟨h.1, ?_, ?_⟩
        · show ch.length
              + spentSpans ((runCalls cfg (some (traceCtx cfg st tmeta)) []
                  (traceState cfg st kwargs) body).st.emitted
                ++ [(runCalls cfg (some (traceCtx cfg st tmeta)) []
                    (traceState cfg st kwargs) body).children
                  ++ [rootRecord cfg st name tmeta kwargs
                    (runCalls cfg (some (traceCtx cfg st tmeta)) []
                      (traceState cfg st kwargs) body)]])
            = ch.length + spentSpans st.emitted
              + countRecorded ctx.isSome [Call.trace name tmeta kwargs body]
          rw [spentSpans_append, hcr]
          have hone : spentSpans
              [(runCalls cfg (some (traceCtx cfg st tmeta)) []
                  (traceState cfg st kwargs) body).children
                ++ [rootRecord cfg st name tmeta kwargs
                  (runCalls cfg (some (traceCtx cfg st tmeta)) []
                    (traceState cfg st kwargs) body)]]
              = (runCalls cfg (some (traceCtx cfg st tmeta)) []
                  (traceState cfg st kwargs) body).children.length + 1 := by
            simp [spentSpans]
          rw [hone]
          omega
        · show ((runCalls cfg (some (traceCtx cfg st tmeta)) []
                (traceState cfg st kwargs) body).st.emitted
              ++ [(runCalls cfg (some (traceCtx cfg st tmeta)) []
                  (traceState cfg st kwargs) body).children
                ++ [rootRecord cfg st name tmeta kwargs
                  (runCalls cfg (some (traceCtx cfg st tmeta)) []
                    (traceState cfg st kwargs) body)]]).length
            = st.emitted.length
              + countTraces [Call.trace name tmeta kwargs body]
          rw [List.length_append, hct]
          simp only [List.length_singleton]
          omega
  refine ⟨hcall, ?_⟩
  intro cs hcs hnr ctx ch st
  cases cs with
  | nil =>
      rw [runCalls_nil_eq]
      exact ⟨rfl, by simp [countRecorded], by simp [countTraces]⟩
  | cons c rest =>
      have hc : csize c ≤ n := by
        simp only [csizes] at hcs
        omega
      have hrest : csizes rest < n := by
        have := csize_pos c
        simp only [csizes] at hcs
        omega
      rw [noRaise_cons] at hnr
      have hnc : noRaise [c] = true := by
        cases hx : noRaise [c] <;> simp [hx] at hnr ⊢
      have hnrest : noRaise rest = true := by
        cases hx : noRaise rest <;> simp [hx] at hnr ⊢
      have h1 := hcall c hc hnc ctx ch st
      rw [runCalls_cons_eq]
      simp only [h1.1]
      have h2 := (IH _ hrest).2 rest le_rfl hnrest ctx
        (runCall cfg ctx ch st c).children (runCall cfg ctx ch st c).st
      refine ⟨h2.1, ?_, ?_⟩
      · rw [countRecorded_cons]
        have ha := h1.2.1
        have hb := h2.2.1
        omega
      · rw [countTraces_cons]
        have ha := h1.2.2
        have hb := h2.2.2
        omega

/-- Counterexample for C8: with `trace_chance = 0` and a draw of exactly
`0.0` — a value `random()` can return — the trace call proceeds and emits
its batch, so it is not the case that nothing is emitted for every
possible draw. -/
theorem C8_counterexample :
    cfg0draw0.trace_chance = some 0 ∧
    (0 : Rat) ≤ cfg0draw0.draws 0 ∧ cfg0draw0.draws 0 < 1 ∧
    (runTop cfg0draw0 [.trace "T" [] [] []]).st.emitted.length = 1 := by
  exact ⟨rfl, by decide, by decide, rfl⟩

/-- C8 (amended): a trace call is skipped exactly when its draw strictly
exceeds `trace_chance`.  With `trace_chance = 0`, runs whose draws are all
strictly positive emit nothing; with `trace_chance = 1` no call is
skipped, and (absent raises) the number of emitted batches equals the
number of trace calls while the number of emitted spans equals the number
of trace calls plus span calls under an active trace. -/
theorem C8_sampling (cfg : Cfg) :
    (cfg.trace_chance = some 0 → (∀ i, 0 < cfg.draws i) →
      ∀ calls, (runTop cfg calls).st.emitted = []) ∧
    (cfg.trace_chance = some 1 → (∀ i, cfg.draws i < 1) →
      ∀ calls, noRaise calls = true →
        (runTop cfg calls).st.emitted.length = countTraces calls ∧
        spentSpans (runTop cfg calls).st.emitted
          = countRecorded false calls) := by
  constructor
  · intro hch hdr calls
    exact ((zeroChance_aux cfg hch hdr (csizes calls)).2 calls le_rfl
      [] st0).1
  · intro hch hdr calls hnr
    have h := (oneChance_aux cfg hch hdr (csizes calls)).2 calls le_rfl hnr
      none [] st0
    have hch0 : (runTop cfg calls).children = [] := by
      obtain ⟨h1, hB, Δ, hΔ, hnone, hsome⟩ :=
        runCalls_inv cfg none [] st0 calls
      show (runCalls cfg none [] st0 calls).children = []
      rw [hΔ, hnone rfl]
      rfl
    have h21 : (runTop cfg calls).children.length
        + spentSpans (runTop cfg calls).st.emitted
        = 0 + 0 + countRecorded false calls := h.2.1
    have h22 : (runTop cfg calls).st.emitted.length
        = 0 + countTraces calls := h.2.2
    have hl : (runTop cfg calls).children.length = 0 := by
      rw [hch0]
      rfl
    exact ⟨by omega, by omega⟩

/-- Witness for C8 at concrete configurations and a concrete call tree. -/
theorem C8_sampling_witness :
    cfg0pos.trace_chance = some 0 ∧
    (runTop cfg0pos
        [.trace "T" [] [] [.span "A" [] []], .span "B" [] []]).st.emitted
      = [] ∧
    cfg1.trace_chance = some 1 ∧
    noRaise [Call.trace "T" [] [] [.span "A" [] []], .span "B" [] []]
      = true ∧
    ((runTop cfg1
        [.trace "T" [] [] [.span "A" [] []], .span "B" [] []]).st.emitted.length
      = countTraces [Call.trace "T" [] [] [.span "A" [] []], .span "B" [] []] ∧
    spentSpans (runTop cfg1
        [.trace "T" [] [] [.span "A" [] []], .span "B" [] []]).st.emitted
      = countRecorded false
          [Call.trace "T" [] [] [.span "A" [] []], .span "B" [] []]) :=
  ⟨rfl,
    (C8_sampling cfg0pos).1 rfl (fun _ => show (0 : Rat) < 1 by decide)
      [.trace "T" [] [] [.span "A" [] []], .span "B" [] []],
    rfl, by simp [noRaise],
    (C8_sampling cfg1).2 rfl (fun _ => show (0 : Rat) < 1 by decide)
      [.trace "T" [] [] [.span "A" [] []], .span "B" [] []]
      (by simp [noRaise])⟩

/-- C2 (code bug): the document encoder evaluates `span["service.name"]`,
a key the tracer's span dicts never carry at top level, so encoding the
batch emitted by a bare trace raises `KeyError` and prints no document;
the service name is present only inside `tracer_metadata`. -/
theorem C2_service_name_keyerror :
    ((runTop testCfg [.trace "T" [] [] []]).st.emitted.map
        (fun b => encode_trace iso0 (b.map Span.toDict))
      = [([], some "KeyError: service.name")]) ∧
    ((runTop testCfg [.trace "T" [] [] []]).st.emitted.map
        (fun b => b.map
          (fun s => List.lookup "service.name" s.tracer_metadata))
      = [[some (.vStr "svc")]]) := ⟨rfl, rfl⟩

/-- Every document the encoder loop prints comes from one input span. -/
theorem encodeLoop_mem (iso : Rat → String) (tg : Doc) :
    ∀ (spans : List PyDict) (d : Doc), d ∈ (encodeLoop iso tg spans).1 →
      ∃ sp ∈ spans, encodeSpan iso tg sp = .ok d := by
  intro spans
  induction spans with
  | nil =>
      intro d hd
      simp [encodeLoop] at hd
  | cons s rest ih =>
      intro d hd
      cases hes : encodeSpan iso tg s with
      | error e =>
          simp only [encodeLoop, hes] at hd
          simp at hd
      | ok doc =>
          simp only [encodeLoop, hes] at hd
          rcases List.mem_cons.1 hd with rfl | hd2
          · exact ⟨s, List.mem_cons_self s rest, hes⟩
          · obtain ⟨sp, hsp, he⟩ := ih d hd2
            exact ⟨sp, List.mem_cons_of_mem s hsp, he⟩

/-- A successfully encoded document is the span document merged with the
span's metadata and then with the trace-group header. -/
theorem encodeSpan_ok (iso : Rat → String) (tg : Doc) (d : PyDict)
    (doc : Doc) (h : encodeSpan iso tg d = .ok doc) :
    ∃ sd md, spanCore iso d = .ok (sd, md) ∧
      doc = pyMerge (pyMerge sd (mdToDoc md)) tg := by
  unfold encodeSpan at h
  cases hc : spanCore iso d with
  | error e =>
      rw [hc] at h
      simp [Except.map] at h
  | ok sm =>
      rw [hc] at h
      simp [Except.map] at h
      exact ⟨sm.1, sm.2, rfl, h.symm⟩

/-- When the batch's last span has no parent id, the trace-group header
carries both trace-group keys. -/
theorem mkTraceGroup_parentless (iso : Rat → String) (last : PyDict)
    (tg : Doc) (hp : List.lookup "trace.parent_id" last = none)
    (h : mkTraceGroup iso last = .ok tg) :
    (List.lookup "traceGroup" tg).isSome ∧
    (List.lookup "traceGroupFields" tg).isSome := by
  unfold mkTraceGroup at h
  rw [hp] at h
  simp only [Option.isSome_none, Bool.false_eq_true, if_false] at h
  split at h
  · injection h with h2
    subst h2
    constructor <;> simp [List.lookup]
  · exact absurd h (by simp)
  · exact absurd h (by simp)
  · exact absurd h (by simp)

/-- Counterexample for C3: on a batch whose last span has no parent id,
the trace-group triple appears in the document of the child span (the one
with a parent) as well, not only in the root's document. -/
theorem C3_counterexample :
    ((encode_trace iso0 [cdict, rdict]).1.map
        (fun d => ((List.lookup "traceGroup" d).isSome,
          (List.lookup "traceGroupFields" d).isSome))
      = [(true, true), (true, true)]) ∧
    (List.lookup "trace.parent_id" cdict).isSome = true ∧
    (encode_trace iso0 [cdict, rdict]).2 = none := ⟨rfl, rfl, rfl⟩

/-- C3 (amended): whenever the batch's last span has no parent id, the
`traceGroup`/`traceGroupFields` triple computed from that span is merged
into the document of every span of the batch, not only the root's. -/
theorem C3_traceGroup_every_doc (iso : Rat → String) (spans : List PyDict)
    (last : PyDict) (hlast : spans.getLast? = some last)
    (hp : List.lookup "trace.parent_id" last = none) :
    ∀ d ∈ (encode_trace iso spans).1,
      (List.lookup "traceGroup" d).isSome ∧
      (List.lookup "traceGroupFields" d).isSome := by
  intro d hd
  unfold encode_trace at hd
  simp only [hlast] at hd
  cases htg : mkTraceGroup iso last with
  | error e =>
      simp only [htg] at hd
      simp at hd
  | ok tg =>
      simp only [htg] at hd
      obtain ⟨sp, hsp, hok⟩ := encodeLoop_mem iso tg spans d hd
      obtain ⟨sd, md, hcore, hdoc⟩ := encodeSpan_ok iso tg sp d hok
      obtain ⟨hg1, hg2⟩ := mkTraceGroup_parentless iso last tg hp htg
      subst hdoc
      constructor
      · rw [lookup_pyMerge]
        cases hx : List.lookup "traceGroup" tg with
        | none => rw [hx] at hg1; simp at hg1
        | some v => simp [hx, Option.or]
      · rw [lookup_pyMerge]
        cases hx : List.lookup "traceGroupFields" tg with
        | none => rw [hx] at hg2; simp at hg2
        | some v => simp [hx, Option.or]

/-- Witness for C3 (amended) at the concrete two-dict batch. -/
theorem C3_traceGroup_every_doc_witness :
    ([cdict, rdict].getLast? = some rdict) ∧
    (List.lookup "trace.parent_id" rdict = none) ∧
    ((encode_trace iso0 [cdict, rdict]).1.headD []
      ∈ (encode_trace iso0 [cdict, rdict]).1) ∧
    ((List.lookup "traceGroup"
        ((encode_trace iso0 [cdict, rdict]).1.headD [])).isSome ∧
      (List.lookup "traceGroupFields"
        ((encode_trace iso0 [cdict, rdict]).1.headD [])).isSome) := by
  have hne : (encode_trace iso0 [cdict, rdict]).1 ≠ [] := by
    intro h
    have hl : (encode_trace iso0 [cdict, rdict]).1.length = 2 := by rfl
    rw [h] at hl
    simp at hl
  have hmem := headD_mem _ ([] : Doc) hne
  exact ⟨rfl, rfl, hmem,
    C3_traceGroup_every_doc iso0 [cdict, rdict] rdict rfl rfl _ hmem⟩

/-- Counterexample for C5: the translator does not default a missing
`kind` metadata key to server — it raises a `KeyError` instead of
producing an OTel span with kind 2. -/
theorem C5_counterexample :
    utrace_span_to_otel spNoKind = .error "KeyError: kind" := rfl

/-- C5 (amended): the translator requires the `kind` metadata key (the
server default is supplied earlier, by the OTel tracer entry points whose
`kind` parameter defaults to `"server"`); it maps the kind strings
internal/server/client/producer/consumer to 1-5, excludes `kind` from the
attribute list, and turns every other trace-level and span-level metadata
entry into an attribute. -/
theorem C5_kind_translation :
    (∀ s : Span, List.lookup "kind" s.metadata = none →
      utrace_span_to_otel s = .error "KeyError: kind") ∧
    (∀ (s : Span) (kname : String) (code : Int),
      List.lookup "kind" s.metadata = some (.vStr kname) →
      List.lookup kname KIND_TO_OTEL = some code →
      ∃ o, utrace_span_to_otel s = .ok o ∧ o.kind = code ∧
        (∀ kv ∈ o.attributes, kv.1 ≠ "kind") ∧
        (∀ kv ∈ s.trace_metadata ++ s.metadata, kv.1 ≠ "kind" →
          toAttr kv ∈ o.attributes) ∧
        o.parentSpanId = s.parentId ∧ o.traceId = s.traceId ∧
        o.spanId = s.spanId) ∧
    (List.lookup "internal" KIND_TO_OTEL = some 1 ∧
      List.lookup "server" KIND_TO_OTEL = some 2 ∧
      List.lookup "client" KIND_TO_OTEL = some 3 ∧
      List.lookup "producer" KIND_TO_OTEL = some 4 ∧
      List.lookup "consumer" KIND_TO_OTEL = some 5) ∧
    (∀ (kind : String) (kwargs : Metadata),
      List.lookup "kind" (otelKwargs kind kwargs) = some (.vStr kind)) := by
  refine ⟨?_, ?_, ⟨rfl, rfl, rfl, rfl, rfl⟩, ?_⟩
  · intro s h
    unfold utrace_span_to_otel
    rw [h]
  · intro s kname code h1 h2
    unfold utrace_span_to_otel
    rw [h1]
    simp only [pyStr]
    rw [h2]
    refine ⟨_, rfl, rfl, ?_, ?_, rfl, rfl, rfl⟩
    · intro kv hkv
      obtain ⟨kv0, hkv0, heq⟩ := List.mem_map.1 hkv
      obtain ⟨hmem, hne⟩ := List.mem_filter.1 hkv0
      rw [← heq]
      show kv0.1 ≠ "kind"
      simpa using hne
    · intro kv hkv hne
      apply List.mem_map.2
      refine ⟨kv, List.mem_filter.2 ⟨hkv, ?_⟩, rfl⟩
      simpa using hne
  · intro kind kwargs
    rfl

/-- Witness for C5 (amended) at a concrete client-kind span. -/
theorem C5_kind_translation_witness :
    List.lookup "kind" spClient.metadata = some (.vStr "client") ∧
    List.lookup "client" KIND_TO_OTEL = some 3 ∧
    (∃ o, utrace_span_to_otel spClient = .ok o ∧ o.kind = 3 ∧
      (∀ kv ∈ o.attributes, kv.1 ≠ "kind") ∧
      (∀ kv ∈ spClient.trace_metadata ++ spClient.metadata,
        kv.1 ≠ "kind" → toAttr kv ∈ o.attributes) ∧
      o.parentSpanId = spClient.parentId ∧ o.traceId = spClient.traceId ∧
      o.spanId = spClient.spanId) :=
  ⟨rfl, rfl, C5_kind_translation.2.1 spClient "client" 3 rfl rfl⟩

/-- C7 (code bug): `span_to_dict` interpolates `parent[1]`, the
trace-metadata dict, instead of `parent[2]`, the current span id, so with
the active context `("t", {}, "s")` the token value is `"t,{}"`; importing
it reconstructs a child whose parent span id is the string `"{}"`, not
`"s"` (while the trace id, the empty trace metadata and the explicit
emission of the fresh children list do behave as specified). -/
theorem C7_token_misencoded :
    span_to_dict (some ⟨"t", [], "s"⟩) = [("_trace", "t,\x7b\x7d")] ∧
    ((span_from_dict testCfg st0 "child" []
        (span_to_dict (some ⟨"t", [], "s"⟩)) []).1.emitted.map
        (fun b => b.map (fun s => (s.parentId, s.traceId,
          s.trace_metadata))))
      = [[(some "\x7b\x7d", "t", ([] : Metadata))]] ∧
    ("\x7b\x7d" : String) ≠ "s" := ⟨rfl, rfl, by decide⟩
